import Mathlib

/-
Verification of the netbird 0.27.7 account state store as packaged in this
repository (management/server/file_store.go and the SQLite store source).

The Go code is embedded shallowly:

* Go maps that are enumerated by the code (Account collections, the
  FileStore.Accounts map, SQLite tables) become association lists
  `List (String × _)`; Go map insertion is modelled by `putKey`
  (replace-in-place or append) and deletion by `eraseKey` (filter).
* The six FileStore secondary index maps are only ever read at single keys
  and written pointwise, never enumerated or serialized, so they become
  functions `String → Option String` (`Idx`).
* Errors produced with status.Errorf become the `StoreErr` inductive; a fallible
  Go method returns `Except StoreErr α`.  A method that can dereference a nil
  pointer returns `GoRes α`, whose `panics` constructor marks the nil
  dereference.
* time.Time becomes `Nat` (0 is Go's zero time, matching time.Time.IsZero);
  time.Now is a parameter `now` of the migration pass with `0 < now`.
* xid.New is a parameter `gen : Nat → String` of the migration pass, applied
  at an incrementing counter; its guarantees (nonempty, globally fresh ids)
  become hypotheses where needed.
* strings.ToUpper / strings.ToLower are modelled on their ASCII fragment by
  `goToUpper` / `goToLower`.
-/

namespace NB

/-- Lookup in an association list, first match wins (Go map read). -/
def findKey {α : Type} (l : List (String × α)) (k : String) : Option α :=
  match l with
  | [] => none
  | (k1, v) :: t => if k1 = k then some v else findKey t k

/-- Go map insertion on an association list: replace the existing entry in
place, else append at the end. -/
def putKey {α : Type} (l : List (String × α)) (k : String) (v : α) :
    List (String × α) :=
  match l with
  | [] => [(k, v)]
  | (k1, v1) :: t => if k1 = k then (k, v) :: t else (k1, v1) :: putKey t k v

/-- Go map deletion on an association list. -/
def eraseKey {α : Type} (l : List (String × α)) (k : String) :
    List (String × α) :=
  l.filter (fun p => decide (p.1 ≠ k))

@[simp] theorem findKey_nil {α : Type} (k : String) :
    findKey ([] : List (String × α)) k = none := rfl

theorem findKey_cons {α : Type} (k k1 : String) (v : α) (t : List (String × α)) :
    findKey ((k1, v) :: t) k = if k1 = k then some v else findKey t k := rfl

theorem findKey_putKey_self {α : Type} (l : List (String × α)) (k : String) (v : α) :
    findKey (putKey l k v) k = some v := by
  induction l with
  | nil => simp [putKey, findKey]
  | cons h t ih =>
    obtain ⟨k1, v1⟩ := h
    by_cases hk : k1 = k
    · simp [putKey, hk, findKey]
    · simp [putKey, hk, findKey, ih]

theorem findKey_putKey_other {α : Type} (l : List (String × α)) (k k2 : String)
    (v : α) (hne : k2 ≠ k) : findKey (putKey l k v) k2 = findKey l k2 := by
  have hne2 : ¬ k = k2 := fun h2 => hne h2.symm
  induction l with
  | nil => simp [putKey, findKey, hne2]
  | cons h t ih =>
    obtain ⟨k1, v1⟩ := h
    by_cases hk : k1 = k
    · subst hk
      simp [putKey, findKey, hne2]
    · simp [putKey, hk, findKey, ih]

theorem findKey_mem {α : Type} (l : List (String × α)) (k : String) (v : α)
    (h : findKey l k = some v) : (k, v) ∈ l := by
  induction l with
  | nil => cases h
  | cons q t ih =>
    obtain ⟨k1, v1⟩ := q
    rw [findKey_cons] at h
    by_cases hk : k1 = k
    · subst hk
      rw [if_pos rfl] at h
      cases h
      exact List.mem_cons_self _ _
    · rw [if_neg hk] at h
      exact List.mem_cons_of_mem _ (ih h)

/-- Pointwise index maps, used for the FileStore secondary indices. -/
def Idx : Type := String → Option String

def idxEmpty : Idx := fun _ => none

def idxPut (m : Idx) (k v : String) : Idx :=
  fun k1 => if k1 = k then some v else m k1

def idxDel (m : Idx) (k : String) : Idx :=
  fun k1 => if k1 = k then none else m k1

@[simp] theorem idxEmpty_apply (k : String) : idxEmpty k = none := rfl

theorem idxPut_self (m : Idx) (k v : String) : idxPut m k v k = some v := by
  simp [idxPut]

theorem idxPut_other (m : Idx) (k v : String) (k2 : String) (h : k2 ≠ k) :
    idxPut m k v k2 = m k2 := by
  simp [idxPut, h]

/-- ASCII fragment of Go strings.ToUpper / unicode.ToUpper on one character. -/
def asciiUpper (c : Char) : Char :=
  if 97 ≤ c.toNat ∧ c.toNat ≤ 122 then Char.ofNat (c.toNat - 32) else c

/-- ASCII fragment of Go strings.ToLower / unicode.ToLower on one character. -/
def asciiLower (c : Char) : Char :=
  if 65 ≤ c.toNat ∧ c.toNat ≤ 90 then Char.ofNat (c.toNat + 32) else c

/-- Model of Go strings.ToUpper restricted to ASCII. -/
def goToUpper (s : String) : String := String.mk (s.data.map asciiUpper)

/-- Model of Go strings.ToLower restricted to ASCII. -/
def goToLower (s : String) : String := String.mk (s.data.map asciiLower)

/-- Error kinds surfaced by the store: the status.Errorf kinds
InvalidArgument and NotFound, and internal for a plain non-status error
bubbled up unchanged (such as a failed gorm transaction). -/
inductive StoreErr : Type
  | invalidArgument
  | notFound
  | internal
  deriving DecidableEq, Repr

instance exceptDecEq {ε α : Type} [DecidableEq ε] [DecidableEq α] :
    DecidableEq (Except ε α) := fun x y =>
  match x, y with
  | Except.ok a, Except.ok b =>
    if h : a = b then isTrue (by rw [h]) else isFalse (by intro hc; cases hc; exact h rfl)
  | Except.error a, Except.error b =>
    if h : a = b then isTrue (by rw [h]) else isFalse (by intro hc; cases hc; exact h rfl)
  | Except.ok _, Except.error _ => isFalse (by intro hc; cases hc)
  | Except.error _, Except.ok _ => isFalse (by intro hc; cases hc)

/-- Result of a Go method that can either return a value, return an error, or
crash on a nil pointer dereference. -/
inductive GoRes (α : Type) : Type
  | ok (a : α)
  | err (e : StoreErr)
  | panics
  deriving DecidableEq, Repr

/- ---------------------------------------------------------------------
Aggregate types (management/server account model, fields that the store
code in src/ reads or writes).
--------------------------------------------------------------------- -/

/-- server.PersonalAccessToken: ID, UserID (gorm column) and HashedToken. -/
structure PersonalAccessToken : Type where
  ID : String
  UserID : String
  HashedToken : String
  deriving DecidableEq, Repr

/-- server.User: stable ID, owning account, issuer tag, last login and the
owned personal access tokens (map keyed by token ID). -/
structure User : Type where
  Id : String
  AccountID : String
  Issued : String
  LastLogin : Nat
  PATs : List (String × PersonalAccessToken)
  deriving DecidableEq, Repr

/-- nbpeer.Peer: stable ID, owning account, WireGuard public key, DNS label
and last-login timestamp (0 is Go's zero time). -/
structure Peer : Type where
  ID : String
  AccountID : String
  Key : String
  DNSLabel : String
  LastLogin : Nat
  deriving DecidableEq, Repr

/-- server.SetupKey: the key string and its owning account column. -/
structure SetupKey : Type where
  Key : String
  AccountID : String
  deriving DecidableEq, Repr

/-- nbgroup.Group: ID, owning account, name, issuer tag and peer-ID list. -/
structure Group : Type where
  ID : String
  AccountID : String
  Name : String
  Issued : String
  Peers : List String
  deriving DecidableEq, Repr

/-- route.Route: ID, owning account, routing peer and distribution groups. -/
structure Route : Type where
  ID : String
  AccountID : String
  Peer : String
  Groups : List String
  deriving DecidableEq, Repr

/-- server.PolicyRule: ID, owning policy column and protocol field. -/
structure PolicyRule : Type where
  ID : String
  PolicyID : String
  Protocol : String
  deriving DecidableEq, Repr

/-- server.Policy: ID, owning account and its rules. -/
structure Policy : Type where
  ID : String
  AccountID : String
  Rules : List PolicyRule
  deriving DecidableEq, Repr

/-- nbdns.NameServerGroup: ID, owning account and name. -/
structure NameServerGroup : Type where
  ID : String
  AccountID : String
  Name : String
  deriving DecidableEq, Repr

/-- server.Settings: the peer-login-expiration policy. -/
structure Settings : Type where
  PeerLoginExpirationEnabled : Bool
  PeerLoginExpiration : Nat
  deriving DecidableEq, Repr

/-- server.Account: the root aggregate.  Collections are Go maps keyed by the
entity's stable identifier, embedded as association lists.  A nil Settings
pointer is Option.none. -/
structure Account : Type where
  Id : String
  Domain : String
  DomainCategory : String
  IsDomainPrimaryAccount : Bool
  Settings : Option Settings
  SetupKeys : List (String × SetupKey)
  Peers : List (String × Peer)
  Users : List (String × User)
  Groups : List (String × Group)
  Routes : List (String × Route)
  Policies : List Policy
  NameServerGroups : List (String × NameServerGroup)
  deriving DecidableEq, Repr

/-- server.PrivateCategory. -/
def PrivateCategory : String := "private"

/-- server.UserIssuedAPI. -/
def UserIssuedAPI : String := "api"

/-- nbgroup.GroupIssuedAPI. -/
def GroupIssuedAPI : String := "api"

/-- server.DefaultPeerLoginExpiration (24h, in seconds here). -/
def DefaultPeerLoginExpiration : Nat := 86400

/- ---------------------------------------------------------------------
FileStore (management/server/file_store.go).

The mutex, the metrics hook, the store file path and the advisory lock
registry carry no data relevant to the claims; persist is modelled as
always succeeding (the spec maps I/O failure to Internal, which no claim
exercises).
--------------------------------------------------------------------- -/

/-- FileStore: the account map, the seven secondary index maps and the
installation ID (file_store.go lines 25-45). -/
structure FileStore : Type where
  Accounts : List (String × Account)
  SetupKeyID2AccountID : Idx
  PeerKeyID2AccountID : Idx
  PeerID2AccountID : Idx
  UserID2AccountID : Idx
  PrivateDomain2AccountID : Idx
  HashedPAT2TokenID : Idx
  TokenID2UserID : Idx
  InstallationID : String

/-- The store created when no store.json exists yet (restore, lines 81-103). -/
def emptyFileStore : FileStore where
  Accounts := []
  SetupKeyID2AccountID := idxEmpty
  PeerKeyID2AccountID := idxEmpty
  PeerID2AccountID := idxEmpty
  UserID2AccountID := idxEmpty
  PrivateDomain2AccountID := idxEmpty
  HashedPAT2TokenID := idxEmpty
  TokenID2UserID := idxEmpty
  InstallationID := ""

/-- Index update for all setup keys of one account (SaveAccount lines 318-320). -/
def putSetupKeysIdx (m : Idx) (aid : String) (ks : List (String × SetupKey)) : Idx :=
  match ks with
  | [] => m
  | (k, _) :: t => putSetupKeysIdx (idxPut m (goToUpper k) aid) aid t

/-- Index update for all peers of one account (SaveAccount lines 323-326). -/
def putPeersIdx (mk mi : Idx) (aid : String) (ps : List (String × Peer)) : Idx × Idx :=
  match ps with
  | [] => (mk, mi)
  | (_, p) :: t => putPeersIdx (idxPut mk p.Key aid) (idxPut mi p.ID aid) aid t

/-- Index update for the tokens of one user (SaveAccount lines 330-333). -/
def putPATsIdx (mt mh : Idx) (uid : String) (ts : List (String × PersonalAccessToken)) :
    Idx × Idx :=
  match ts with
  | [] => (mt, mh)
  | (_, pat) :: t => putPATsIdx (idxPut mt pat.ID uid) (idxPut mh pat.HashedToken pat.ID) uid t

/-- Index update for all users of one account (SaveAccount lines 328-334). -/
def putUsersIdx (mu mt mh : Idx) (aid : String) (us : List (String × User)) :
    Idx × Idx × Idx :=
  match us with
  | [] => (mu, mt, mh)
  | (_, u) :: t =>
    let pq := putPATsIdx mt mh u.Id u.PATs
    putUsersIdx (idxPut mu u.Id aid) pq.1 pq.2 aid t

/-- FileStore.SaveAccount (file_store.go lines 304-341).  The account copy is
value semantics here; persist always succeeds. -/
def FileStore.SaveAccount (s : FileStore) (account : Account) :
    Except StoreErr Unit × FileStore :=
  if account.Id = "" then
    (Except.error StoreErr.invalidArgument, s)
  else
    let pk := putPeersIdx s.PeerKeyID2AccountID s.PeerID2AccountID account.Id account.Peers
    let uq := putUsersIdx s.UserID2AccountID s.TokenID2UserID s.HashedPAT2TokenID
      account.Id account.Users
    (Except.ok (), { s with
      Accounts := putKey s.Accounts account.Id account
      SetupKeyID2AccountID := putSetupKeysIdx s.SetupKeyID2AccountID account.Id account.SetupKeys
      PeerKeyID2AccountID := pk.1
      PeerID2AccountID := pk.2
      UserID2AccountID := uq.1
      TokenID2UserID := uq.2.1
      HashedPAT2TokenID := uq.2.2
      PrivateDomain2AccountID :=
        if account.DomainCategory = PrivateCategory ∧ account.IsDomainPrimaryAccount then
          idxPut s.PrivateDomain2AccountID account.Domain account.Id
        else s.PrivateDomain2AccountID })

/-- FileStore.getAccount (lines 482-489): a plain map read. -/
def FileStore.getAccount (s : FileStore) (accountID : String) : Except StoreErr Account :=
  match findKey s.Accounts accountID with
  | none => Except.error StoreErr.notFound
  | some a => Except.ok a

/-- FileStore.GetAccount (lines 492-502): getAccount plus a deep copy, which is
the identity on values. -/
def FileStore.GetAccount (s : FileStore) (accountID : String) : Except StoreErr Account :=
  FileStore.getAccount s accountID

/-- FileStore.GetAllAccounts (lines 471-479): copies of every stored account. -/
def FileStore.GetAllAccounts (s : FileStore) : List Account :=
  s.Accounts.map (fun p => p.2)

/-- FileStore.GetAccountByUser (lines 505-520): resolves the user index and
returns the account; it performs no staleness check on Users. -/
def FileStore.GetAccountByUser (s : FileStore) (userID : String) :
    Except StoreErr Account :=
  match s.UserID2AccountID userID with
  | none => Except.error StoreErr.notFound
  | some aid => FileStore.getAccount s aid

/-- FileStore.GetAccountBySetupKey (lines 417-432): resolves the setup-key
index (upper-cased) and returns the account; it performs no staleness check
on SetupKeys. -/
def FileStore.GetAccountBySetupKey (s : FileStore) (setupKey : String) :
    Except StoreErr Account :=
  match s.SetupKeyID2AccountID (goToUpper setupKey) with
  | none => Except.error StoreErr.notFound
  | some aid => FileStore.getAccount s aid

/-- FileStore.GetAccountByPrivateDomain (lines 399-414): resolves the domain
index at the lower-cased argument and returns the account; it performs no
staleness check. -/
def FileStore.GetAccountByPrivateDomain (s : FileStore) (domain : String) :
    Except StoreErr Account :=
  match s.PrivateDomain2AccountID (goToLower domain) with
  | none => Except.error StoreErr.notFound
  | some aid => FileStore.getAccount s aid

/-- FileStore.GetAccountByPeerID (lines 523-546): resolves the peer-ID index,
then checks Account.Peers; a stale entry is deleted and reported NotFound. -/
def FileStore.GetAccountByPeerID (s : FileStore) (peerID : String) :
    Except StoreErr Account × FileStore :=
  match s.PeerID2AccountID peerID with
  | none => (Except.error StoreErr.notFound, s)
  | some aid =>
    match findKey s.Accounts aid with
    | none => (Except.error StoreErr.notFound, s)
    | some a =>
      match findKey a.Peers peerID with
      | none =>
        (Except.error StoreErr.notFound,
         { s with PeerID2AccountID := idxDel s.PeerID2AccountID peerID })
      | some _ => (Except.ok a, s)

/-- FileStore.GetAccountByPeerPubKey (lines 549-579): resolves the peer-key
index, then scans Account.Peers for a matching Key; a stale entry is deleted
and reported NotFound. -/
def FileStore.GetAccountByPeerPubKey (s : FileStore) (peerKey : String) :
    Except StoreErr Account × FileStore :=
  match s.PeerKeyID2AccountID peerKey with
  | none => (Except.error StoreErr.notFound, s)
  | some aid =>
    match findKey s.Accounts aid with
    | none => (Except.error StoreErr.notFound, s)
    | some a =>
      if a.Peers.any (fun p => p.2.Key = peerKey) then
        (Except.ok a, s)
      else
        (Except.error StoreErr.notFound,
         { s with PeerKeyID2AccountID := idxDel s.PeerKeyID2AccountID peerKey })

/-- FileStore.GetAccountIDByPeerPubKey (lines 581-591). -/
def FileStore.GetAccountIDByPeerPubKey (s : FileStore) (peerKey : String) :
    Except StoreErr String :=
  match s.PeerKeyID2AccountID peerKey with
  | none => Except.error StoreErr.notFound
  | some aid => Except.ok aid

/-- FileStore.GetTokenIDByHashedToken (lines 435-445). -/
def FileStore.GetTokenIDByHashedToken (s : FileStore) (token : String) :
    Except StoreErr String :=
  match s.HashedPAT2TokenID token with
  | none => Except.error StoreErr.notFound
  | some tid => Except.ok tid

/-- FileStore.GetUserByTokenID (lines 448-468).  The final step of the Go code
is account.Users[userID].Copy(): when the user is missing from the owning
account's Users map, the map read yields a nil pointer and Copy dereferences
it, so the method panics; that control point is GoRes.panics. -/
def FileStore.GetUserByTokenID (s : FileStore) (tokenID : String) : GoRes User :=
  match s.TokenID2UserID tokenID with
  | none => GoRes.err StoreErr.notFound
  | some userID =>
    match s.UserID2AccountID userID with
    | none => GoRes.err StoreErr.notFound
    | some aid =>
      match findKey s.Accounts aid with
      | none => GoRes.err StoreErr.notFound
      | some a =>
        match findKey a.Users userID with
        | none => GoRes.panics
        | some u => GoRes.ok u

/-- FileStore.GetInstallationID (lines 594-596). -/
def FileStore.GetInstallationID (s : FileStore) : String := s.InstallationID

/-- FileStore.SaveInstallationID (lines 599-606). -/
def FileStore.SaveInstallationID (s : FileStore) (id : String) : FileStore :=
  { s with InstallationID := id }

/- ---------------------------------------------------------------------
SqliteStore (the SQLite store source file, src/unnamed/part_002).

The gorm database is embedded as one list of rows per table.  A gorm
query `First(..., "col = ?", v)` is the first list element whose column
equals v; `Find` with a condition is a filter; Create with
FullSaveAssociations stamps foreign keys from the parent and upserts by
primary key (modelled as delete-same-primary-key then append);
`Select(clause.Associations).Delete` removes the rows and their owned
association rows.
--------------------------------------------------------------------- -/

/-- The SQLite database state: one table per entity type plus the
installation row. -/
structure SqliteStore : Type where
  accounts : List Account
  setupKeys : List SetupKey
  peers : List Peer
  users : List User
  pats : List PersonalAccessToken
  groups : List Group
  routes : List Route
  policies : List Policy
  rules : List PolicyRule
  nsGroups : List NameServerGroup
  installation : Option String
  deriving DecidableEq, Repr

/-- A SqliteStore with empty tables (fresh store.db after auto-migration). -/
def emptySqliteStore : SqliteStore where
  accounts := []
  setupKeys := []
  peers := []
  users := []
  pats := []
  groups := []
  routes := []
  policies := []
  rules := []
  nsGroups := []
  installation := none

/-- Upsert a row by primary key (gorm Create with OnConflict UpdateAll):
any row with the same primary key is replaced, the new row is appended. -/
def upsertBy {α : Type} (pk : α → String) (l : List α) (r : α) : List α :=
  l.filter (fun x => decide (pk x ≠ pk r)) ++ [r]

def upsertAllBy {α : Type} (pk : α → String) (l : List α) (rs : List α) : List α :=
  match rs with
  | [] => l
  | r :: t => upsertAllBy pk (upsertBy pk l r) t

/-- The scalar columns of the account row: collection fields are not columns
(they live in their own tables). -/
def accountRow (a : Account) : Account :=
  { a with
    SetupKeys := []
    Peers := []
    Users := []
    Groups := []
    Routes := []
    Policies := []
    NameServerGroups := [] }

/-- The committed effect of SqliteStore.SaveAccount's transaction (part_002
lines 198-222) when it succeeds.  The G-slices are built from the maps: the
map key is stamped into the entity ID field for peers, users, tokens,
groups, routes and name-server groups (but not for setup keys, whose map key
is discarded), and gorm stamps the owning foreign keys on create. -/
def SqliteStore.saveAccountTx (s : SqliteStore) (account : Account) : SqliteStore :=
  let setupRows := account.SetupKeys.map (fun p => { p.2 with AccountID := account.Id })
  let peerRows := account.Peers.map (fun p => { p.2 with ID := p.1, AccountID := account.Id })
  let userRows := account.Users.map
    (fun p => { p.2 with Id := p.1, AccountID := account.Id, PATs := [] })
  let patRows := account.Users.flatMap
    (fun p => p.2.PATs.map (fun q => { q.2 with ID := q.1, UserID := p.1 }))
  let groupRows := account.Groups.map (fun p => { p.2 with ID := p.1, AccountID := account.Id })
  let routeRows := account.Routes.map (fun p => { p.2 with ID := p.1, AccountID := account.Id })
  let policyRows := account.Policies.map
    (fun po => { po with AccountID := account.Id, Rules := [] })
  let ruleRows := account.Policies.flatMap
    (fun po => po.Rules.map (fun r => { r with PolicyID := po.ID }))
  let nsRows := account.NameServerGroups.map
    (fun p => { p.2 with ID := p.1, AccountID := account.Id })
  -- delete phase: the account's policies with their rules, its users with
  -- their tokens, then the account row cascading to the remaining owned rows
  let oldPolicyIds := (s.policies.filter (fun po => po.AccountID = account.Id)).map Policy.ID
  let oldUserIds := (s.users.filter (fun u => u.AccountID = account.Id)).map User.Id
  let s1 : SqliteStore := { s with
    policies := s.policies.filter (fun po => decide (po.AccountID ≠ account.Id))
    rules := s.rules.filter (fun r => decide (r.PolicyID ∉ oldPolicyIds))
    users := s.users.filter (fun u => decide (u.AccountID ≠ account.Id))
    pats := s.pats.filter (fun t => decide (t.UserID ∉ oldUserIds))
    accounts := s.accounts.filter (fun a => decide (a.Id ≠ account.Id))
    setupKeys := s.setupKeys.filter (fun k => decide (k.AccountID ≠ account.Id))
    peers := s.peers.filter (fun p => decide (p.AccountID ≠ account.Id))
    groups := s.groups.filter (fun g => decide (g.AccountID ≠ account.Id))
    routes := s.routes.filter (fun r => decide (r.AccountID ≠ account.Id))
    nsGroups := s.nsGroups.filter (fun n => decide (n.AccountID ≠ account.Id)) }
  -- create phase: insert the whole aggregate fresh, upsert-on-conflict
  { s1 with
    accounts := upsertAllBy Account.Id s1.accounts [accountRow account]
    setupKeys := upsertAllBy SetupKey.Key s1.setupKeys setupRows
    peers := upsertAllBy Peer.ID s1.peers peerRows
    users := upsertAllBy User.Id s1.users userRows
    pats := upsertAllBy PersonalAccessToken.ID s1.pats patRows
    groups := upsertAllBy Group.ID s1.groups groupRows
    routes := upsertAllBy Route.ID s1.routes routeRows
    policies := upsertAllBy Policy.ID s1.policies policyRows
    rules := upsertAllBy PolicyRule.ID s1.rules ruleRows
    nsGroups := upsertAllBy NameServerGroup.ID s1.nsGroups nsRows }

/-- SqliteStore.SaveAccount (part_002 lines 162-231).  There is no empty-ID
validation; when the account's Id (the primary key) is empty, the failure
comes from gorm itself: the delete of the account row by model
(tx.Select(clause.Associations).Delete(account), line 209) carries a zero
primary key, which gorm's blocked-global-delete protection refuses with
ErrMissingWhereClause, so the transaction rolls back (undoing the two
preceding conditioned deletes) and the method returns that plain error -
not an InvalidArgument status - leaving the store unchanged. -/
def SqliteStore.SaveAccount (s : SqliteStore) (account : Account) :
    Except StoreErr Unit × SqliteStore :=
  if account.Id = "" then (Except.error StoreErr.internal, s)
  else (Except.ok (), SqliteStore.saveAccountTx s account)

/-- SqliteStore.GetAccount (part_002 lines 425-491): fetch the account row,
preload every owned table by the owning foreign key and rebuild the maps
keyed by the entity ID columns. -/
def SqliteStore.GetAccount (s : SqliteStore) (accountID : String) :
    Except StoreErr Account :=
  match s.accounts.find? (fun a => a.Id = accountID) with
  | none => Except.error StoreErr.notFound
  | some row =>
    let policies := (s.policies.filter (fun po => po.AccountID = row.Id)).map
      (fun po => { po with Rules := s.rules.filter (fun r => r.PolicyID = po.ID) })
    Except.ok { row with
      SetupKeys := ((s.setupKeys.filter (fun k => k.AccountID = row.Id)).map
        (fun k => (k.Key, k)))
      Peers := (s.peers.filter (fun p => p.AccountID = row.Id)).map (fun p => (p.ID, p))
      Users := ((s.users.filter (fun u => u.AccountID = row.Id)).map
        (fun u => (u.Id, { u with PATs :=
          ((s.pats.filter (fun t => t.UserID = u.Id)).map (fun t => (t.ID, t))) })))
      Groups := (s.groups.filter (fun g => g.AccountID = row.Id)).map (fun g => (g.ID, g))
      Routes := (s.routes.filter (fun r => r.AccountID = row.Id)).map (fun r => (r.ID, r))
      Policies := policies
      NameServerGroups := ((s.nsGroups.filter (fun n => n.AccountID = row.Id)).map
        (fun n => (n.ID, n))) }

/-- SqliteStore.GetAllAccounts (part_002 lines 409-423). -/
def SqliteStore.GetAllAccounts (s : SqliteStore) : List Account :=
  (s.accounts.filterMap (fun row => (SqliteStore.GetAccount s row.Id).toOption))

/-- SqliteStore.SaveInstallationID (part_002 lines 264-269). -/
def SqliteStore.SaveInstallationID (s : SqliteStore) (id : String) : SqliteStore :=
  { s with installation := some id }

/-- SqliteStore.GetInstallationID (part_002 lines 271-279): empty string when
the installation row is absent. -/
def SqliteStore.GetInstallationID (s : SqliteStore) : String :=
  match s.installation with
  | none => ""
  | some v => v

/-- SqliteStore.GetUserByTokenID (part_002 lines 380-407): token row by ID,
then its user row with tokens preloaded; every absent hop is NotFound. -/
def SqliteStore.GetUserByTokenID (s : SqliteStore) (tokenID : String) : GoRes User :=
  match s.pats.find? (fun t => t.ID = tokenID) with
  | none => GoRes.err StoreErr.notFound
  | some token =>
    if token.UserID = "" then GoRes.err StoreErr.notFound
    else
      match s.users.find? (fun u => u.Id = token.UserID) with
      | none => GoRes.err StoreErr.notFound
      | some u =>
        GoRes.ok { u with
          PATs := (s.pats.filter (fun t => t.UserID = u.Id)).map (fun t => (t.ID, t)) }

/- ---------------------------------------------------------------------
The file-engine migration pass (restore, file_store.go lines 104-244).

restore reads accounts plus the installation ID from store.json (the
index maps are tagged json:"-" and never serialized), rebuilds every
index and migrates legacy shapes.  time.Now and xid.New are the
parameters now / gen; gen is applied at a counter that advances once per
generated ID.
--------------------------------------------------------------------- -/

/-- The nondeterministic inputs of restore: the current time and the xid
supply. -/
structure MigParams : Type where
  now : Nat
  gen : Nat → String

/-- The index maps and the xid counter threaded through the per-account
restore loop. -/
structure RestoreState : Type where
  setupIdx : Idx
  peerKeyIdx : Idx
  peerIdIdx : Idx
  userIdx : Idx
  domainIdx : Idx
  hashedIdx : Idx
  tokenIdx : Idx
  counter : Nat

def emptyRestoreState : RestoreState where
  setupIdx := idxEmpty
  peerKeyIdx := idxEmpty
  peerIdIdx := idxEmpty
  userIdx := idxEmpty
  domainIdx := idxEmpty
  hashedIdx := idxEmpty
  tokenIdx := idxEmpty
  counter := 0

/-- Steps 2-5 of the per-account loop: rebuild the setup-key, peer-key,
peer-ID, user, token and private-domain index entries from the account's
live data (lines 128-152).  Only fields that the later migration steps never
modify are read here (setup-key map keys, peer Key and ID fields, user Ids
and tokens, the domain triple), except the peer-ID entries, which the peer
identity migration extends further down. -/
def idxStep (st : RestoreState) (aid : String) (a : Account) : RestoreState :=
  let su := putSetupKeysIdx st.setupIdx aid a.SetupKeys
  let pk := putPeersIdx st.peerKeyIdx st.peerIdIdx aid a.Peers
  let uq := putUsersIdx st.userIdx st.tokenIdx st.hashedIdx aid a.Users
  { st with
    setupIdx := su
    peerKeyIdx := pk.1
    peerIdIdx := pk.2
    userIdx := uq.1
    tokenIdx := uq.2.1
    hashedIdx := uq.2.2
    domainIdx :=
      if a.Domain ≠ "" ∧ a.DomainCategory = PrivateCategory ∧ a.IsDomainPrimaryAccount then
        idxPut st.domainIdx a.Domain aid
      else st.domainIdx }

/-- Step 5a of the loop (lines 154-162): Policy.UpgradeAndFix.  Modelled from
the spec: normalize each Policy's internal shape to the current rule
representation (the UpgradeAndFix body is not in src/); rules lacking a
protocol get the catch-all protocol, which is idempotent. -/
def upgradeAndFix (po : Policy) : Policy :=
  { po with Rules := (po.Rules.map
      (fun r => if r.Protocol = "" then { r with Protocol := "all" } else r)) }

/-- Modelled from the spec: Account.getPeerDNSLabels (not in src/) collects
the set of DNS labels already present on the account's peers.  A peer that
lacks a label contributes nothing, so an unlabeled peer makes the label
count fall short of the peer count and the guard at line 166 triggers the
backfill, as the spec's "Backfill DNS labels for peers that lack one"
requires. -/
def getPeerDNSLabels (ps : List (String × Peer)) : List String :=
  ((ps.map (fun p => p.2.DNSLabel)).filter (fun l => decide (l ≠ ""))).dedup

/-- Modelled from the spec: addPeerLabelsToAccount (not in src/) backfills a
DNS label for every peer that lacks one (step 6, "Backfill DNS labels for
peers that lack one"); peers that already carry a label are untouched. -/
def addPeerLabels (ps : List (String × Peer)) : List (String × Peer) :=
  ps.map (fun p => if p.2.DNSLabel = "" then (p.1, { p.2 with DNSLabel := "peer" }) else p)

/-- Step 6 of the loop (lines 164-168): backfill DNS labels when the label
count does not match the peer count. -/
def labelStep (ps : List (String × Peer)) : List (String × Peer) :=
  if (getPeerDNSLabels ps).length ≠ ps.length then addPeerLabels ps else ps

/-- Modelled from the spec: Account.GetGroupAll (not in src/) resolves the
account's built-in "all peers" group, the group named All. -/
def findGroupAll (gs : List (String × Group)) : Option Group :=
  (gs.find? (fun g => g.2.Name = "All")).map (fun g => g.2)

/-- Steps 1-7 of the per-account loop, the pure account rewrites before the
All-group branch: default Settings (lines 121-126), user issuer backfill
(lines 138-141), policy normalization (lines 154-162), DNS label backfill
(lines 164-168) and group issuer backfill (lines 170-176).  The user issuer
backfill is modelled as an in-place entry update; the Go loop writes
account.Users[user.Id] = user through a shared pointer, which coincides with
this whenever each Users map key equals the user's Id (true of every
SaveAccount-written or SQLite-loaded account) and would additionally insert
a duplicate entry at the key user.Id for a mis-keyed legacy user. -/
def preMigrate (a : Account) : Account :=
  let a1 := if a.Settings.isNone then
    { a with Settings := some { PeerLoginExpirationEnabled := false,
                                PeerLoginExpiration := DefaultPeerLoginExpiration } }
    else a
  let a2 := { a1 with Users := (a1.Users.map
    (fun (p : String × User) =>
      if p.2.Issued = "" then (p.1, { p.2 with Issued := UserIssuedAPI }) else p)) }
  let a3 := { a2 with Policies := a2.Policies.map upgradeAndFix }
  let a4 := { a3 with Peers := labelStep a3.Peers }
  { a4 with Groups := (a4.Groups.map
    (fun (p : String × Group) =>
      if p.2.Issued = "" then (p.1, { p.2 with Issued := GroupIssuedAPI }) else p)) }

/-- First loop of the peer identity migration (lines 197-209): stamp a zero
LastLogin with the current time on every peer, then assign a fresh ID to the
peers whose ID is empty; returns the updated peer list, the migrationPeers
list (old map key to updated peer) and the advanced counter. -/
def migratePass1 (p : MigParams) (ps : List (String × Peer)) (c : Nat) :
    List (String × Peer) × List (String × Peer) × Nat :=
  match ps with
  | [] => ([], [], c)
  | (k, pr) :: t =>
    let pr1 := if pr.LastLogin = 0 then { pr with LastLogin := p.now } else pr
    if pr1.ID = "" then
      let pr2 := { pr1 with ID := p.gen c }
      let q := migratePass1 p t (c + 1)
      ((k, pr2) :: q.1, (k, pr2) :: q.2.1, q.2.2)
    else
      let q := migratePass1 p t c
      ((k, pr1) :: q.1, q.2.1, q.2.2)

/-- Second loop of the peer identity migration (lines 211-217): swap each
migrated peer's old map key for its new ID in Account.Peers. -/
def rekeyPeers (migs ps : List (String × Peer)) : List (String × Peer) :=
  match migs with
  | [] => ps
  | (k, pr) :: t => rekeyPeers t (putKey (eraseKey ps k) pr.ID pr)

/-- Peer-ID index entries for the migrated peers (line 216). -/
def putMigsIdx (m : Idx) (aid : String) (migs : List (String × Peer)) : Idx :=
  match migs with
  | [] => m
  | (_, pr) :: t => putMigsIdx (idxPut m pr.ID aid) aid t

/-- Rewrite of group peer lists (lines 219-226): every element that is a
migrated peer's old map key becomes the peer's new ID. -/
def rewriteGroups (migs : List (String × Peer)) (gs : List (String × Group)) :
    List (String × Group) :=
  gs.map (fun p => (p.1, { p.2 with Peers := (p.2.Peers.map
    (fun e => match findKey migs e with
      | some pr => pr.ID
      | none => e)) }))

/-- Rewrite of route peer assignments (lines 228-233). -/
def rewriteRoutes (migs : List (String × Peer)) (rs : List (String × Route)) :
    List (String × Route) :=
  rs.map (fun p => (p.1, match findKey migs p.2.Peer with
    | some pr => { p.2 with Peer := pr.ID }
    | none => p.2))

/-- The whole per-account body of the restore loop (lines 120-235): index
rebuild, pre-migration rewrites, then the All-group branch. When the All
group cannot be found the loop continues with the next account (line 182),
skipping the route backfill and the entire peer identity migration; otherwise
empty route group lists are backfilled (lines 185-189) and the peer identity
migration runs (lines 191-234). -/
def restoreAccount (p : MigParams) (st : RestoreState) (aid : String) (a : Account) :
    RestoreState × Account :=
  let st1 := idxStep st aid a
  let a5 := preMigrate a
  match findGroupAll a5.Groups with
  | none => (st1, a5)
  | some allGroup =>
    let a6 := { a5 with Routes := (a5.Routes.map
      (fun (p : String × Route) =>
        if p.2.Groups = [] then (p.1, { p.2 with Groups := [allGroup.ID] }) else p)) }
    let q := migratePass1 p a6.Peers st1.counter
    let a7 := { a6 with Peers := q.1 }
    if q.2.1 = [] then
      ({ st1 with counter := q.2.2 }, a7)
    else
      ({ st1 with peerIdIdx := putMigsIdx st1.peerIdIdx aid q.2.1, counter := q.2.2 },
       { a7 with
         Peers := rekeyPeers q.2.1 a7.Peers
         Groups := rewriteGroups q.2.1 a7.Groups
         Routes := rewriteRoutes q.2.1 a7.Routes })

/-- The restore loop over all accounts (lines 120-235). -/
def restoreAll (p : MigParams) (st : RestoreState) (accs : List (String × Account)) :
    RestoreState × List (String × Account) :=
  match accs with
  | [] => (st, [])
  | (aid, a) :: t =>
    let q := restoreAccount p st aid a
    let r := restoreAll p q.1 t
    (r.1, (aid, q.2) :: r.2)

/-- restore (lines 104-244) on an existing store.json holding the given
accounts and installation ID: fresh index maps are built and the migration
pass runs; the final persist always succeeds here. -/
def restore (p : MigParams) (accs : List (String × Account)) (instID : String) :
    FileStore :=
  let q := restoreAll p emptyRestoreState accs
  { Accounts := q.2
    SetupKeyID2AccountID := q.1.setupIdx
    PeerKeyID2AccountID := q.1.peerKeyIdx
    PeerID2AccountID := q.1.peerIdIdx
    UserID2AccountID := q.1.userIdx
    PrivateDomain2AccountID := q.1.domainIdx
    HashedPAT2TokenID := q.1.hashedIdx
    TokenID2UserID := q.1.tokenIdx
    InstallationID := instID }

/- ---------------------------------------------------------------------
Bulk engine conversions.
--------------------------------------------------------------------- -/

/-- NewSqliteStoreFromFileStore (part_002 lines 89-108): saves the source
installation ID, then writes every account of the file store through
SqliteStore.SaveAccount.  The fresh store opened by NewSqliteStore is the
first argument. -/
def sqliteFromFileStore (fresh : SqliteStore) (fs : FileStore) : SqliteStore :=
  (fs.GetAllAccounts).foldl (fun s a => (SqliteStore.SaveAccount s a).2)
    (SqliteStore.SaveInstallationID fresh fs.InstallationID)

/-- NewFilestoreFromSqliteStore (file_store.go lines 60-76): saves the source
installation ID, then assigns every SQLite account directly into the
Accounts map - it does not call FileStore.SaveAccount, so no secondary index
is updated.  The store opened by NewFileStore is the first argument. -/
def filestoreFromSqliteStore (fresh : FileStore) (ss : SqliteStore) : FileStore :=
  let fs1 := FileStore.SaveInstallationID fresh ss.GetInstallationID
  { fs1 with
    Accounts := (ss.GetAllAccounts).foldl (fun m a => putKey m a.Id a) fs1.Accounts }

/- ---------------------------------------------------------------------
Concrete sample data used by counterexamples and witnesses.
--------------------------------------------------------------------- -/

/-- An account with all fields empty. -/
def account0 : Account where
  Id := ""
  Domain := ""
  DomainCategory := ""
  IsDomainPrimaryAccount := false
  Settings := none
  SetupKeys := []
  Peers := []
  Users := []
  Groups := []
  Routes := []
  Policies := []
  NameServerGroups := []

/-- A minimal stored account with id a1 and no owned entities. -/
def acctA1 : Account :=
  { account0 with
    Id := "a1"
    Settings := some { PeerLoginExpirationEnabled := false,
                       PeerLoginExpiration := DefaultPeerLoginExpiration } }

/-- A file store holding acctA1 and a stale setup-key index entry: the key
KEY is indexed to a1 but a1 owns no setup keys. -/
def staleSetupStore : FileStore :=
  { emptyFileStore with
    Accounts := [("a1", acctA1)]
    SetupKeyID2AccountID := idxPut idxEmpty "KEY" "a1" }

/-- A file store holding acctA1 and a stale peer-ID index entry. -/
def stalePeerStore : FileStore :=
  { emptyFileStore with
    Accounts := [("a1", acctA1)]
    PeerID2AccountID := idxPut idxEmpty "p1" "a1" }

/- ---------------------------------------------------------------------
Claim C1.
--------------------------------------------------------------------- -/

/-- Claim C1, counterexample: GetAccountBySetupKey does not self-heal.  In
staleSetupStore the index entry KEY is stale (account a1 owns no setup key),
yet the lookup returns the account instead of deleting the entry and
reporting NotFound. -/
theorem claim1_counterexample :
    findKey acctA1.SetupKeys "KEY" = none ∧
    staleSetupStore.SetupKeyID2AccountID "KEY" = some "a1" ∧
    FileStore.GetAccountBySetupKey staleSetupStore "KEY" = Except.ok acctA1 := by
  refine ⟨rfl, rfl, ?_⟩
  decide

/-- Claim C1, amended: only the two peer lookups self-heal.  If the peer-ID
(resp. peer-public-key) index holds an entry whose referenced peer no longer
exists in the owning account, GetAccountByPeerID (resp.
GetAccountByPeerPubKey) deletes the entry and returns NotFound, and a repeat
lookup no longer finds an index entry; GetAccountByUser, GetAccountBySetupKey
and GetAccountByPrivateDomain perform no staleness check and return the
account whenever the index entry and the account exist
(claim1_counterexample). -/
theorem claim1_amended :
    (∀ (s : FileStore) (pid aid : String) (a : Account),
      s.PeerID2AccountID pid = some aid →
      findKey s.Accounts aid = some a →
      findKey a.Peers pid = none →
      FileStore.GetAccountByPeerID s pid =
        (Except.error StoreErr.notFound,
          { s with PeerID2AccountID := idxDel s.PeerID2AccountID pid }) ∧
      (FileStore.GetAccountByPeerID s pid).2.PeerID2AccountID pid = none ∧
      (FileStore.GetAccountByPeerID (FileStore.GetAccountByPeerID s pid).2 pid).1 =
        Except.error StoreErr.notFound) ∧
    (∀ (s : FileStore) (pkey aid : String) (a : Account),
      s.PeerKeyID2AccountID pkey = some aid →
      findKey s.Accounts aid = some a →
      a.Peers.any (fun p => p.2.Key = pkey) = false →
      FileStore.GetAccountByPeerPubKey s pkey =
        (Except.error StoreErr.notFound,
          { s with PeerKeyID2AccountID := idxDel s.PeerKeyID2AccountID pkey }) ∧
      (FileStore.GetAccountByPeerPubKey s pkey).2.PeerKeyID2AccountID pkey = none ∧
      (FileStore.GetAccountByPeerPubKey (FileStore.GetAccountByPeerPubKey s pkey).2 pkey).1 =
        Except.error StoreErr.notFound) := by
  constructor
  · intro s pid aid a hidx hacc hstale
    have h1 : FileStore.GetAccountByPeerID s pid =
        (Except.error StoreErr.notFound,
          { s with PeerID2AccountID := idxDel s.PeerID2AccountID pid }) := by
      simp [FileStore.GetAccountByPeerID, hidx, hacc, hstale]
    refine ⟨h1, ?_, ?_⟩
    · rw [h1]
      simp [idxDel]
    · rw [h1]
      simp [FileStore.GetAccountByPeerID, idxDel]
  · intro s pkey aid a hidx hacc hstale
    have h1 : FileStore.GetAccountByPeerPubKey s pkey =
        (Except.error StoreErr.notFound,
          { s with PeerKeyID2AccountID := idxDel s.PeerKeyID2AccountID pkey }) := by
      simp [FileStore.GetAccountByPeerPubKey, hidx, hacc, hstale]
    refine ⟨h1, ?_, ?_⟩
    · rw [h1]
      simp [idxDel]
    · rw [h1]
      simp [FileStore.GetAccountByPeerPubKey, idxDel]

/-- Claim C1, witness: the amended self-heal property evaluated on
stalePeerStore, whose p1 entry is stale. -/
theorem claim1_witness :
    stalePeerStore.PeerID2AccountID "p1" = some "a1" ∧
    findKey stalePeerStore.Accounts "a1" = some acctA1 ∧
    findKey acctA1.Peers "p1" = none ∧
    (FileStore.GetAccountByPeerID stalePeerStore "p1" =
      (Except.error StoreErr.notFound,
        { stalePeerStore with
          PeerID2AccountID := idxDel stalePeerStore.PeerID2AccountID "p1" }) ∧
     (FileStore.GetAccountByPeerID stalePeerStore "p1").2.PeerID2AccountID "p1" = none ∧
     (FileStore.GetAccountByPeerID
        (FileStore.GetAccountByPeerID stalePeerStore "p1").2 "p1").1 =
       Except.error StoreErr.notFound) :=
  ⟨rfl, rfl, rfl, claim1_amended.1 stalePeerStore "p1" "a1" acctA1 rfl rfl rfl⟩

/- ---------------------------------------------------------------------
Claim C2.
--------------------------------------------------------------------- -/

/-- Claim C2, counterexample: the SQLite engine does not return
InvalidArgument for the empty account ID.  SqliteStore.SaveAccount has no
validation; saving account0 (whose Id is empty) still fails and leaves the
store unchanged, but with the plain transaction error of the delete blocked
on the zero primary key (part_002 line 209), not with the InvalidArgument
status the claim asserts for both engines. -/
theorem claim2_counterexample :
    account0.Id = "" ∧
    (SqliteStore.SaveAccount emptySqliteStore account0).1 = Except.error StoreErr.internal ∧
    (SqliteStore.SaveAccount emptySqliteStore account0).1 ≠
      Except.error StoreErr.invalidArgument := by
  refine ⟨rfl, by decide, by decide⟩

/-- Claim C2, amended: on both engines SaveAccount of an empty-ID account
errors and leaves the store completely unchanged (GetAllAccounts included),
but only the file engine returns InvalidArgument, through its explicit
validation; the SQLite engine performs no validation and fails instead with
the transaction error of the account-row delete that gorm refuses on the
zero primary key. -/
theorem claim2_amended (s : FileStore) (s2 : SqliteStore) (a : Account) (h : a.Id = "") :
    FileStore.SaveAccount s a = (Except.error StoreErr.invalidArgument, s) ∧
    (FileStore.SaveAccount s a).2.GetAllAccounts = s.GetAllAccounts ∧
    SqliteStore.SaveAccount s2 a = (Except.error StoreErr.internal, s2) ∧
    (SqliteStore.SaveAccount s2 a).2.GetAllAccounts = s2.GetAllAccounts := by
  have h1 : FileStore.SaveAccount s a = (Except.error StoreErr.invalidArgument, s) := by
    simp [FileStore.SaveAccount, h]
  have h2 : SqliteStore.SaveAccount s2 a = (Except.error StoreErr.internal, s2) := by
    simp [SqliteStore.SaveAccount, h]
  exact ⟨h1, by rw [h1], h2, by rw [h2]⟩

/-- Claim C2, witness: the two failure modes evaluated on the empty stores
of both engines and account0. -/
theorem claim2_witness :
    account0.Id = "" ∧
    (FileStore.SaveAccount emptyFileStore account0 =
      (Except.error StoreErr.invalidArgument, emptyFileStore) ∧
    (FileStore.SaveAccount emptyFileStore account0).2.GetAllAccounts =
      emptyFileStore.GetAllAccounts ∧
    SqliteStore.SaveAccount emptySqliteStore account0 =
      (Except.error StoreErr.internal, emptySqliteStore) ∧
    (SqliteStore.SaveAccount emptySqliteStore account0).2.GetAllAccounts =
      emptySqliteStore.GetAllAccounts) :=
  ⟨rfl, claim2_amended emptyFileStore emptySqliteStore account0 rfl⟩

/- ---------------------------------------------------------------------
Claim C6.
--------------------------------------------------------------------- -/

/-- A file store where the token index resolves t1 to user u1 and the user
index resolves u1 to account a1, but a1's Users map does not contain u1. -/
def tokenPanicStore : FileStore :=
  { emptyFileStore with
    Accounts := [("a1", acctA1)]
    TokenID2UserID := idxPut idxEmpty "t1" "u1"
    UserID2AccountID := idxPut idxEmpty "u1" "a1" }

/-- Claim C6: evaluation of the failing input.  In tokenPanicStore every hop
of GetUserByTokenID succeeds until the final read of the owning account's
Users map, which comes back empty; the Go code then calls Copy on the nil
*User and panics instead of returning NotFound. -/
theorem claim6_theorem :
    tokenPanicStore.TokenID2UserID "t1" = some "u1" ∧
    tokenPanicStore.UserID2AccountID "u1" = some "a1" ∧
    findKey tokenPanicStore.Accounts "a1" = some acctA1 ∧
    findKey acctA1.Users "u1" = none ∧
    FileStore.GetUserByTokenID tokenPanicStore "t1" = GoRes.panics := by
  refine ⟨rfl, rfl, rfl, rfl, ?_⟩
  decide

/- ---------------------------------------------------------------------
Claim C10.
--------------------------------------------------------------------- -/

/-- The domain contains at least one ASCII uppercase letter. -/
def hasUpperChar (s : String) : Bool :=
  s.data.any (fun c => 65 ≤ c.toNat && c.toNat ≤ 90)

theorem asciiLower_ne (c : Char) (h65 : 65 ≤ c.toNat) (h90 : c.toNat ≤ 90) :
    asciiLower c ≠ c := by
  have hv : (c.toNat + 32).isValidChar := Or.inl (by omega)
  have hv2 : (c.val.toNat + 32).isValidChar := hv
  have ht : (Char.ofNat (c.toNat + 32)).toNat = c.toNat + 32 := by
    simp only [Char.ofNat, Char.ofNatAux, Char.toNat]
    rw [dif_pos hv2]
    rfl
  intro he
  rw [asciiLower, if_pos ⟨h65, h90⟩] at he
  have h2 := congrArg Char.toNat he
  rw [ht] at h2
  omega

theorem map_ne_of_mem_ne (f : Char → Char) (l : List Char) (c : Char) (hc : c ∈ l)
    (hne : f c ≠ c) : l.map f ≠ l := by
  induction l with
  | nil => cases hc
  | cons a t ih =>
    intro he
    rw [List.map_cons] at he
    have h1 : f a = a := (List.cons.injEq (f a) (t.map f) a t ▸ he : _ ∧ _).1
    have h2 : t.map f = t := (List.cons.injEq (f a) (t.map f) a t ▸ he : _ ∧ _).2
    rcases List.mem_cons.mp hc with h3 | h3
    · exact hne (h3 ▸ h1)
    · exact ih h3 h2

theorem goToLower_ne_of_hasUpper (s : String) (h : hasUpperChar s = true) :
    goToLower s ≠ s := by
  obtain ⟨c, hc, hb⟩ := List.any_eq_true.mp h
  have h65 : 65 ≤ c.toNat := by
    have := (Bool.and_eq_true _ _).mp hb
    exact Nat.le_of_ble_eq_true (by simpa using this.1)
  have h90 : c.toNat ≤ 90 := by
    have := (Bool.and_eq_true _ _).mp hb
    exact Nat.le_of_ble_eq_true (by simpa using this.2)
  intro he
  apply map_ne_of_mem_ne asciiLower s.data c hc (asciiLower_ne c h65 h90)
  have h3 := congrArg String.data he
  simpa [goToLower] using h3

/-- Claim C10: in the file engine SaveAccount indexes the private domain
verbatim while GetAccountByPrivateDomain lowercases its argument, so for a
primary private-domain account whose Domain contains an uppercase letter a
successful save followed by a lookup with that exact Domain string returns
NotFound (provided the lowercased key is not independently present). -/
theorem claim10_theorem (s : FileStore) (a : Account)
    (hid : a.Id ≠ "")
    (hcat : a.DomainCategory = PrivateCategory)
    (hprim : a.IsDomainPrimaryAccount = true)
    (hup : hasUpperChar a.Domain = true)
    (hfree : s.PrivateDomain2AccountID (goToLower a.Domain) = none) :
    (FileStore.SaveAccount s a).1 = Except.ok () ∧
    FileStore.GetAccountByPrivateDomain (FileStore.SaveAccount s a).2 a.Domain =
      Except.error StoreErr.notFound := by
  have hlower := goToLower_ne_of_hasUpper a.Domain hup
  constructor
  · simp [FileStore.SaveAccount, hid]
  · have hsave : (FileStore.SaveAccount s a).2.PrivateDomain2AccountID =
        idxPut s.PrivateDomain2AccountID a.Domain a.Id := by
      simp [FileStore.SaveAccount, hid, hcat, hprim]
    have hkey : (FileStore.SaveAccount s a).2.PrivateDomain2AccountID
        (goToLower a.Domain) = none := by
      rw [hsave, idxPut_other _ _ _ _ hlower, hfree]
    simp [FileStore.GetAccountByPrivateDomain, hkey]

/-- A primary private-domain account whose domain has uppercase letters. -/
def acctDom : Account :=
  { account0 with
    Id := "a2"
    Domain := "Example.com"
    DomainCategory := PrivateCategory
    IsDomainPrimaryAccount := true }

/-- Claim C10, witness: the lookup miss evaluated on the empty store and
acctDom. -/
theorem claim10_witness :
    acctDom.Id ≠ "" ∧
    acctDom.DomainCategory = PrivateCategory ∧
    acctDom.IsDomainPrimaryAccount = true ∧
    hasUpperChar acctDom.Domain = true ∧
    emptyFileStore.PrivateDomain2AccountID (goToLower acctDom.Domain) = none ∧
    ((FileStore.SaveAccount emptyFileStore acctDom).1 = Except.ok () ∧
     FileStore.GetAccountByPrivateDomain
       (FileStore.SaveAccount emptyFileStore acctDom).2 acctDom.Domain =
       Except.error StoreErr.notFound) :=
  ⟨by decide, rfl, rfl, by decide, rfl,
   claim10_theorem emptyFileStore acctDom (by decide) rfl rfl (by decide) rfl⟩

/- ---------------------------------------------------------------------
Generic list/table lemmas for the relational model.
--------------------------------------------------------------------- -/

theorem filter_eq_nil_of {α : Type} (p : α → Bool) (l : List α)
    (h : ∀ x ∈ l, p x = false) : l.filter p = [] := by
  induction l with
  | nil => rfl
  | cons a t ih =>
    have ha := h a (List.mem_cons_self a t)
    have ht := ih (fun x hx => h x (List.mem_cons_of_mem a hx))
    simp [List.filter_cons, ha, ht]

theorem filter_eq_self_of {α : Type} (p : α → Bool) (l : List α)
    (h : ∀ x ∈ l, p x = true) : l.filter p = l := by
  induction l with
  | nil => rfl
  | cons a t ih =>
    have ha := h a (List.mem_cons_self a t)
    have ht := ih (fun x hx => h x (List.mem_cons_of_mem a hx))
    simp [List.filter_cons, ha, ht]

theorem map_id_of {α : Type} (f : α → α) (l : List α)
    (h : ∀ x ∈ l, f x = x) : l.map f = l := by
  induction l with
  | nil => rfl
  | cons a t ih =>
    rw [List.map_cons, h a (List.mem_cons_self a t),
      ih (fun x hx => h x (List.mem_cons_of_mem a hx))]

theorem find?_append_left_false {α : Type} (p : α → Bool) (l1 l2 : List α)
    (h : ∀ x ∈ l1, p x = false) : (l1 ++ l2).find? p = l2.find? p := by
  induction l1 with
  | nil => rfl
  | cons a t ih =>
    have ha := h a (List.mem_cons_self a t)
    have ht := ih (fun x hx => h x (List.mem_cons_of_mem a hx))
    rw [List.cons_append, List.find?_cons, ha]
    exact ht

/-- With pairwise-distinct primary keys among the inserted rows, the upsert
fold is: delete every old row whose primary key is reused, then append the
new rows in order. -/
theorem upsertAll_eq {α : Type} (pk : α → String) (old rows : List α)
    (h : (rows.map pk).Nodup) :
    upsertAllBy pk old rows =
      old.filter (fun x => decide (pk x ∉ rows.map pk)) ++ rows := by
  induction rows generalizing old with
  | nil =>
    rw [show upsertAllBy pk old [] = old from rfl, List.append_nil,
      filter_eq_self_of _ _ (fun x _ => by simp)]
  | cons r t ih =>
    rw [List.map_cons, List.nodup_cons] at h
    have step : upsertAllBy pk old (r :: t) = upsertAllBy pk (upsertBy pk old r) t := rfl
    rw [step, ih _ h.2, upsertBy, List.filter_append]
    have hr : [r].filter (fun x => decide (pk x ∉ t.map pk)) = [r] :=
      filter_eq_self_of _ _ (by
        intro x hx
        rw [List.mem_singleton] at hx
        subst hx
        simp [h.1])
    rw [hr]
    have hcomm : (old.filter (fun x => decide (pk x ≠ pk r))).filter
        (fun x => decide (pk x ∉ t.map pk)) =
        old.filter (fun x => decide (pk x ∉ (r :: t).map pk)) := by
      rw [List.filter_filter]
      apply List.filter_congr
      intro x _
      simp only [List.map_cons, List.mem_cons, decide_not]
      by_cases h1 : pk x = pk r
      · simp [h1]
      · by_cases h2 : pk x ∈ t.map pk <;> simp [h1, h2]
    rw [hcomm, List.append_assoc]
    rfl

/-- After upserting rows that all carry owner aid over a base with no
aid-owned row, filtering by owner returns exactly the new rows. -/
theorem table_after_save {α : Type} (pk own : α → String) (aid : String)
    (base rows : List α)
    (hbase : ∀ x ∈ base, ¬ own x = aid)
    (hrows : ∀ x ∈ rows, own x = aid)
    (hpk : (rows.map pk).Nodup) :
    (upsertAllBy pk base rows).filter (fun x => decide (own x = aid)) = rows := by
  rw [upsertAll_eq pk base rows hpk, List.filter_append]
  have h1 : (base.filter (fun x => decide (pk x ∉ rows.map pk))).filter
      (fun x => decide (own x = aid)) = [] := by
    apply filter_eq_nil_of
    intro x hx
    have hxb : x ∈ base := (List.mem_filter.mp hx).1
    simp [hbase x hxb]
  have h2 : rows.filter (fun x => decide (own x = aid)) = rows := by
    apply filter_eq_self_of
    intro x hx
    simp [hrows x hx]
  rw [h1, h2, List.nil_append]

/-- Filtering a flat list of per-parent blocks by one parent's key returns
exactly that parent's block, when parent keys are pairwise distinct and each
block is tagged with its parent's key. -/
theorem filter_flatMap_blocks {α β : Type} (l : List β) (keyOf : β → String)
    (f : β → List α) (own : α → String) (k : String)
    (hblocks : ∀ b ∈ l, ∀ x ∈ f b, own x = keyOf b)
    (hnd : (l.map keyOf).Nodup)
    (b0 : β) (hb0 : b0 ∈ l) (hk : keyOf b0 = k) :
    (l.flatMap f).filter (fun x => decide (own x = k)) = f b0 := by
  induction l with
  | nil => cases hb0
  | cons b t ih =>
    rw [List.map_cons, List.nodup_cons] at hnd
    rw [List.flatMap_cons, List.filter_append]
    by_cases hbk : keyOf b = k
    · have hb0b : b0 = b := by
        rcases List.mem_cons.mp hb0 with h1 | h1
        · exact h1
        · exfalso
          apply hnd.1
          have h2 : keyOf b0 ∈ t.map keyOf := List.mem_map_of_mem keyOf h1
          rw [hk] at h2
          rw [hbk]
          exact h2
      subst hb0b
      have hfb : (f b0).filter (fun x => decide (own x = k)) = f b0 := by
        apply filter_eq_self_of
        intro x hx
        simp [hblocks b0 (List.mem_cons_self b0 t) x hx, hk]
      have hft : (t.flatMap f).filter (fun x => decide (own x = k)) = [] := by
        apply filter_eq_nil_of
        intro x hx
        obtain ⟨b2, hb2, hxb2⟩ := List.mem_flatMap.mp hx
        have hb2k : keyOf b2 ≠ k := by
          intro he
          apply hnd.1
          rw [hbk, ← he]
          exact List.mem_map_of_mem keyOf hb2
        simp [hblocks b2 (List.mem_cons_of_mem b0 hb2) x hxb2, hb2k]
      rw [hfb, hft, List.append_nil]
    · have hb0t : b0 ∈ t := by
        rcases List.mem_cons.mp hb0 with h1 | h1
        · exact absurd (h1 ▸ hk) hbk
        · exact h1
      have hfb : (f b).filter (fun x => decide (own x = k)) = [] := by
        apply filter_eq_nil_of
        intro x hx
        simp [hblocks b (List.mem_cons_self b t) x hx, hbk]
      rw [hfb, List.nil_append]
      exact ih (fun b2 hb2 => hblocks b2 (List.mem_cons_of_mem b hb2)) hnd.2 hb0t

theorem filter_append_map_eq {α β : Type} (p : α → Bool) (back : α → β)
    (l1 l2 : List α) (out : List β)
    (h1 : ∀ x ∈ l1, p x = false) (h2 : (l2.filter p).map back = out) :
    ((l1 ++ l2).filter p).map back = out := by
  rw [List.filter_append, filter_eq_nil_of p l1 h1, List.nil_append, h2]

/-- Rows of an inserted aggregate filtered back by owner and mapped back to
map entries reproduce the original collection. -/
theorem table_roundtrip {α β : Type} (pk own : α → String) (aid : String)
    (base : List α) (orig : List β) (stamp : β → α) (back : α → β)
    (hbase : ∀ x ∈ base, ¬ own x = aid)
    (hstampOwn : ∀ p ∈ orig, own (stamp p) = aid)
    (hpk : ((orig.map stamp).map pk).Nodup)
    (hback : ∀ p ∈ orig, back (stamp p) = p) :
    ((upsertAllBy pk base (orig.map stamp)).filter
      (fun x => decide (own x = aid))).map back = orig := by
  rw [table_after_save pk own aid base (orig.map stamp) hbase
    (fun x hx => by
      obtain ⟨p, hp, he⟩ := List.mem_map.mp hx
      rw [← he]
      exact hstampOwn p hp) hpk]
  rw [List.map_map]
  exact map_id_of _ _ (fun p hp => hback p hp)

@[simp] theorem accountRow_Id (a : Account) : (accountRow a).Id = a.Id := rfl

/-- The shape invariants that the store itself maintains on an aggregate:
every collection map is keyed by the contained entity's own identifier, the
ownership columns point at the owner, and identifiers do not repeat. -/
structure WellKeyed (a : Account) : Prop where
  setupKeysKeyed : ∀ p ∈ a.SetupKeys, p.2.Key = p.1 ∧ p.2.AccountID = a.Id
  setupKeysNodup : (a.SetupKeys.map (fun p => p.2.Key)).Nodup
  peersKeyed : ∀ p ∈ a.Peers, p.2.ID = p.1 ∧ p.2.AccountID = a.Id
  peersNodup : (a.Peers.map Prod.fst).Nodup
  usersKeyed : ∀ p ∈ a.Users, p.2.Id = p.1 ∧ p.2.AccountID = a.Id
  usersNodup : (a.Users.map Prod.fst).Nodup
  patsKeyed : ∀ p ∈ a.Users, ∀ q ∈ p.2.PATs, q.2.ID = q.1 ∧ q.2.UserID = p.1
  patsNodup : (a.Users.flatMap (fun p => p.2.PATs.map Prod.fst)).Nodup
  groupsKeyed : ∀ p ∈ a.Groups, p.2.ID = p.1 ∧ p.2.AccountID = a.Id
  groupsNodup : (a.Groups.map Prod.fst).Nodup
  routesKeyed : ∀ p ∈ a.Routes, p.2.ID = p.1 ∧ p.2.AccountID = a.Id
  routesNodup : (a.Routes.map Prod.fst).Nodup
  policiesKeyed : ∀ po ∈ a.Policies, po.AccountID = a.Id ∧ ∀ r ∈ po.Rules, r.PolicyID = po.ID
  policiesNodup : (a.Policies.map Policy.ID).Nodup
  rulesNodup : (a.Policies.flatMap (fun po => po.Rules.map PolicyRule.ID)).Nodup
  nsKeyed : ∀ p ∈ a.NameServerGroups, p.2.ID = p.1 ∧ p.2.AccountID = a.Id
  nsNodup : (a.NameServerGroups.map Prod.fst).Nodup

/-- No pre-existing foreign row of the database dangles into the aggregate
being saved: tokens of other accounts do not reference its user IDs and
rules of other accounts do not reference its policy IDs. -/
structure CleanFor (s : SqliteStore) (a : Account) : Prop where
  patsClean : ∀ q ∈ s.pats, q.UserID ∉ a.Users.map Prod.fst
  rulesClean : ∀ r ∈ s.rules, r.PolicyID ∉ a.Policies.map Policy.ID

/-- SQLite save/get round trip: for a well-keyed aggregate saved over a
database with no dangling foreign references, GetAccount reproduces the
aggregate exactly. -/
theorem sqlite_save_get (s : SqliteStore) (a : Account)
    (hw : WellKeyed a) (hc : CleanFor s a) :
    SqliteStore.GetAccount (SqliteStore.saveAccountTx s a) a.Id = Except.ok a := by
  have hfind : ((SqliteStore.saveAccountTx s a).accounts).find?
      (fun x => decide (x.Id = a.Id)) = some (accountRow a) := by
    have he : (SqliteStore.saveAccountTx s a).accounts =
        upsertAllBy Account.Id (s.accounts.filter (fun x => decide (x.Id ≠ a.Id)))
          [accountRow a] := rfl
    rw [he, upsertAll_eq _ _ _ (by simp)]
    rw [find?_append_left_false]
    · simp [List.find?_cons, accountRow]
    · intro x hx
      have hx1 := (List.mem_filter.mp (List.mem_filter.mp hx).1).2
      simp only [decide_eq_true_eq] at hx1
      simp [hx1]
  -- per-table round trips
  have hsetup : (((SqliteStore.saveAccountTx s a).setupKeys.filter
      (fun k => decide (k.AccountID = a.Id))).map (fun k => (k.Key, k))) = a.SetupKeys := by
    have he : (SqliteStore.saveAccountTx s a).setupKeys =
        upsertAllBy SetupKey.Key (s.setupKeys.filter (fun k => decide (k.AccountID ≠ a.Id)))
          (a.SetupKeys.map (fun p => { p.2 with AccountID := a.Id })) := rfl
    rw [he]
    apply table_roundtrip
    · intro x hx
      have hx1 := (List.mem_filter.mp hx).2
      simpa using hx1
    · intro p _
      rfl
    · rw [List.map_map]
      exact hw.setupKeysNodup
    · intro p hp
      obtain ⟨h1, h2⟩ := hw.setupKeysKeyed p hp
      obtain ⟨k0, v0⟩ := p
      obtain ⟨vk, va⟩ := v0
      simp only at h1 h2
      simp [h1, h2]
  have hpeers : (((SqliteStore.saveAccountTx s a).peers.filter
      (fun x => decide (x.AccountID = a.Id))).map (fun x => (x.ID, x))) = a.Peers := by
    have he : (SqliteStore.saveAccountTx s a).peers =
        upsertAllBy Peer.ID (s.peers.filter (fun x => decide (x.AccountID ≠ a.Id)))
          (a.Peers.map (fun p => { p.2 with ID := p.1, AccountID := a.Id })) := rfl
    rw [he]
    apply table_roundtrip
    · intro x hx
      have hx1 := (List.mem_filter.mp hx).2
      simpa using hx1
    · intro p _
      rfl
    · rw [List.map_map]
      exact hw.peersNodup
    · intro p hp
      obtain ⟨h1, h2⟩ := hw.peersKeyed p hp
      obtain ⟨k0, v0⟩ := p
      obtain ⟨vi, va, vkey, vd, vl⟩ := v0
      simp only at h1 h2
      simp [h1, h2]
  have hgroups : (((SqliteStore.saveAccountTx s a).groups.filter
      (fun x => decide (x.AccountID = a.Id))).map (fun x => (x.ID, x))) = a.Groups := by
    have he : (SqliteStore.saveAccountTx s a).groups =
        upsertAllBy Group.ID (s.groups.filter (fun x => decide (x.AccountID ≠ a.Id)))
          (a.Groups.map (fun p => { p.2 with ID := p.1, AccountID := a.Id })) := rfl
    rw [he]
    apply table_roundtrip
    · intro x hx
      have hx1 := (List.mem_filter.mp hx).2
      simpa using hx1
    · intro p _
      rfl
    · rw [List.map_map]
      exact hw.groupsNodup
    · intro p hp
      obtain ⟨h1, h2⟩ := hw.groupsKeyed p hp
      obtain ⟨k0, v0⟩ := p
      obtain ⟨vi, va, vn, vis, vp⟩ := v0
      simp only at h1 h2
      simp [h1, h2]
  have hroutes : (((SqliteStore.saveAccountTx s a).routes.filter
      (fun x => decide (x.AccountID = a.Id))).map (fun x => (x.ID, x))) = a.Routes := by
    have he : (SqliteStore.saveAccountTx s a).routes =
        upsertAllBy Route.ID (s.routes.filter (fun x => decide (x.AccountID ≠ a.Id)))
          (a.Routes.map (fun p => { p.2 with ID := p.1, AccountID := a.Id })) := rfl
    rw [he]
    apply table_roundtrip
    · intro x hx
      have hx1 := (List.mem_filter.mp hx).2
      simpa using hx1
    · intro p _
      rfl
    · rw [List.map_map]
      exact hw.routesNodup
    · intro p hp
      obtain ⟨h1, h2⟩ := hw.routesKeyed p hp
      obtain ⟨k0, v0⟩ := p
      obtain ⟨vi, va, vp, vg⟩ := v0
      simp only at h1 h2
      simp [h1, h2]
  have hns : (((SqliteStore.saveAccountTx s a).nsGroups.filter
      (fun x => decide (x.AccountID = a.Id))).map (fun x => (x.ID, x))) =
      a.NameServerGroups := by
    have he : (SqliteStore.saveAccountTx s a).nsGroups =
        upsertAllBy NameServerGroup.ID
          (s.nsGroups.filter (fun x => decide (x.AccountID ≠ a.Id)))
          (a.NameServerGroups.map (fun p => { p.2 with ID := p.1, AccountID := a.Id })) := rfl
    rw [he]
    apply table_roundtrip
    · intro x hx
      have hx1 := (List.mem_filter.mp hx).2
      simpa using hx1
    · intro p _
      rfl
    · rw [List.map_map]
      exact hw.nsNodup
    · intro p hp
      obtain ⟨h1, h2⟩ := hw.nsKeyed p hp
      obtain ⟨k0, v0⟩ := p
      obtain ⟨vi, va, vn⟩ := v0
      simp only at h1 h2
      simp [h1, h2]
  -- token sub-table, per user
  have hpats : ∀ p ∈ a.Users, (((SqliteStore.saveAccountTx s a).pats.filter
      (fun q => decide (q.UserID = p.1))).map (fun q => (q.ID, q))) = p.2.PATs := by
    intro p hp
    have he : (SqliteStore.saveAccountTx s a).pats =
        upsertAllBy PersonalAccessToken.ID
          (s.pats.filter (fun x => decide (x.UserID ∉
            ((s.users.filter (fun u => u.AccountID = a.Id)).map User.Id))))
          (a.Users.flatMap (fun p2 => p2.2.PATs.map
            (fun q => { q.2 with ID := q.1, UserID := p2.1 }))) := rfl
    have hpknd : ((a.Users.flatMap (fun p2 => p2.2.PATs.map
        (fun q => { q.2 with ID := q.1, UserID := p2.1 }))).map
          PersonalAccessToken.ID).Nodup := by
      rw [List.map_flatMap]
      simp only [List.map_map]
      exact hw.patsNodup
    rw [he, upsertAll_eq _ _ _ hpknd]
    apply filter_append_map_eq
    · intro x hx
      have hx1 : x ∈ s.pats :=
        (List.mem_filter.mp (List.mem_filter.mp hx).1).1
      have hx2 := hc.patsClean x hx1
      have hx3 : p.1 ∈ a.Users.map Prod.fst := List.mem_map_of_mem Prod.fst hp
      simp only [decide_eq_false_iff_not]
      intro heq
      rw [heq] at hx2
      exact hx2 hx3
    · rw [filter_flatMap_blocks a.Users Prod.fst
        (fun p2 => p2.2.PATs.map (fun q => { q.2 with ID := q.1, UserID := p2.1 }))
        PersonalAccessToken.UserID p.1
        (fun b _ x hx => by
          obtain ⟨q, hq, he2⟩ := List.mem_map.mp hx
          rw [← he2])
        hw.usersNodup p hp rfl]
      rw [List.map_map]
      apply map_id_of
      intro q hq
      obtain ⟨h1, h2⟩ := hw.patsKeyed p hp q hq
      obtain ⟨qk, qv⟩ := q
      obtain ⟨qi, qu, qh⟩ := qv
      simp only at h1 h2
      simp [h1, h2]
  -- rule sub-table, per policy
  have hrules : ∀ po ∈ a.Policies, ((SqliteStore.saveAccountTx s a).rules.filter
      (fun r => decide (r.PolicyID = po.ID))) = po.Rules := by
    intro po hpo
    have he : (SqliteStore.saveAccountTx s a).rules =
        upsertAllBy PolicyRule.ID
          (s.rules.filter (fun x => decide (x.PolicyID ∉
            ((s.policies.filter (fun p2 => p2.AccountID = a.Id)).map Policy.ID))))
          (a.Policies.flatMap (fun p2 => p2.Rules.map
            (fun r => { r with PolicyID := p2.ID }))) := rfl
    have hpknd : ((a.Policies.flatMap (fun p2 => p2.Rules.map
        (fun r => { r with PolicyID := p2.ID }))).map PolicyRule.ID).Nodup := by
      rw [List.map_flatMap]
      simp only [List.map_map]
      exact hw.rulesNodup
    rw [he, upsertAll_eq _ _ _ hpknd, List.filter_append]
    have hleft : ∀ x ∈ (s.rules.filter (fun x => decide (x.PolicyID ∉
        ((s.policies.filter (fun p2 => p2.AccountID = a.Id)).map Policy.ID)))).filter
          (fun x => decide (PolicyRule.ID x ∉
            (a.Policies.flatMap (fun p2 => p2.Rules.map
              (fun r => { r with PolicyID := p2.ID }))).map PolicyRule.ID)),
        decide (x.PolicyID = po.ID) = false := by
      intro x hx
      have hx1 : x ∈ s.rules :=
        (List.mem_filter.mp (List.mem_filter.mp hx).1).1
      have hx2 := hc.rulesClean x hx1
      have hx3 : po.ID ∈ a.Policies.map Policy.ID := List.mem_map_of_mem Policy.ID hpo
      simp only [decide_eq_false_iff_not]
      intro heq
      rw [heq] at hx2
      exact hx2 hx3
    rw [filter_eq_nil_of _ _ hleft, List.nil_append]
    rw [filter_flatMap_blocks a.Policies Policy.ID
      (fun p2 => p2.Rules.map (fun r => { r with PolicyID := p2.ID }))
      PolicyRule.PolicyID po.ID
      (fun b _ x hx => by
        obtain ⟨q, hq, he2⟩ := List.mem_map.mp hx
        rw [← he2])
      hw.policiesNodup po hpo rfl]
    apply map_id_of
    intro r hr
    have h1 := (hw.policiesKeyed po hpo).2 r hr
    obtain ⟨ri, rp, rproto⟩ := r
    simp only at h1
    simp [h1]
  -- users table
  have husers : (((SqliteStore.saveAccountTx s a).users.filter
      (fun u => decide (u.AccountID = a.Id))).map
      (fun u => (u.Id, { u with PATs := (((SqliteStore.saveAccountTx s a).pats.filter
        (fun q => decide (q.UserID = u.Id))).map (fun q => (q.ID, q))) }))) = a.Users := by
    have he : (SqliteStore.saveAccountTx s a).users =
        upsertAllBy User.Id (s.users.filter (fun x => decide (x.AccountID ≠ a.Id)))
          (a.Users.map (fun p => { p.2 with Id := p.1, AccountID := a.Id, PATs := [] })) :=
      rfl
    rw [he]
    apply table_roundtrip
    · intro x hx
      have hx1 := (List.mem_filter.mp hx).2
      simpa using hx1
    · intro p _
      rfl
    · rw [List.map_map]
      exact hw.usersNodup
    · intro p hp
      obtain ⟨h1, h2⟩ := hw.usersKeyed p hp
      have h3 := hpats p hp
      obtain ⟨k0, v0⟩ := p
      obtain ⟨vi, va, vis, vl, vp⟩ := v0
      simp only at h1 h2 h3
      simp [h1, h2, h3]
  -- policies table
  have hpolicies : (((SqliteStore.saveAccountTx s a).policies.filter
      (fun po => decide (po.AccountID = a.Id))).map
      (fun po => { po with Rules := ((SqliteStore.saveAccountTx s a).rules.filter
        (fun r => decide (r.PolicyID = po.ID))) })) = a.Policies := by
    have he : (SqliteStore.saveAccountTx s a).policies =
        upsertAllBy Policy.ID (s.policies.filter (fun x => decide (x.AccountID ≠ a.Id)))
          (a.Policies.map (fun po => { po with AccountID := a.Id, Rules := [] })) := rfl
    rw [he]
    apply table_roundtrip
    · intro x hx
      have hx1 := (List.mem_filter.mp hx).2
      simpa using hx1
    · intro p _
      rfl
    · rw [List.map_map]
      exact hw.policiesNodup
    · intro po hpo
      have h1 := (hw.policiesKeyed po hpo).1
      have h3 := hrules po hpo
      obtain ⟨pid, pacc, prules⟩ := po
      simp only at h1 h3
      simp [h1, h3]
  -- assemble
  simp only [SqliteStore.GetAccount, hfind, accountRow_Id]
  rw [hsetup, hpeers, husers, hgroups, hroutes, hpolicies, hns]
  rfl

/- ---------------------------------------------------------------------
Claim C8.
--------------------------------------------------------------------- -/

/-- A peer stored under a map key that differs from its ID field. -/
def peerMiskey : Peer :=
  { ID := "p9", AccountID := "a1", Key := "PKX", DNSLabel := "d", LastLogin := 3 }

/-- An account whose Peers map key k1 differs from the peer's own ID p9. -/
def acctMiskey : Account :=
  { account0 with Id := "a1", Peers := [("k1", peerMiskey)] }

/-- Claim C8, counterexample: on the SQLite engine the round trip re-keys.
SaveAccount stamps the map key k1 into the peer's ID column, so GetAccount
returns a peer whose ID is k1, not the saved p9: the fetched account is not
equal to the saved one in all fields. -/
theorem claim8_counterexample :
    acctMiskey.Id ≠ "" ∧
    (SqliteStore.SaveAccount emptySqliteStore acctMiskey).1 = Except.ok () ∧
    SqliteStore.GetAccount (SqliteStore.SaveAccount emptySqliteStore acctMiskey).2
      acctMiskey.Id ≠ Except.ok acctMiskey := by
  refine ⟨by decide, rfl, by decide⟩

/-- Claim C8, amended: the save/get round trip returns an account equal to
the saved one in all fields on the file engine for every account with a
non-empty ID, and on the SQLite engine additionally provided the account is
well-keyed (map keys equal entity IDs, ownership columns point at the owner,
no duplicate IDs) and no foreign row references its user or policy IDs;
otherwise the SQLite engine re-stamps keys (claim8_counterexample). -/
theorem claim8_amended :
    (∀ (s : FileStore) (a : Account), a.Id ≠ "" →
      (FileStore.SaveAccount s a).1 = Except.ok () ∧
      FileStore.GetAccount (FileStore.SaveAccount s a).2 a.Id = Except.ok a) ∧
    (∀ (s : SqliteStore) (a : Account), a.Id ≠ "" → WellKeyed a → CleanFor s a →
      (SqliteStore.SaveAccount s a).1 = Except.ok () ∧
      SqliteStore.GetAccount (SqliteStore.saveAccountTx s a) a.Id = Except.ok a) := by
  constructor
  · intro s a h
    constructor
    · simp [FileStore.SaveAccount, h]
    · have hacc : (FileStore.SaveAccount s a).2.Accounts = putKey s.Accounts a.Id a := by
        simp [FileStore.SaveAccount, h]
      simp [FileStore.GetAccount, FileStore.getAccount, hacc, findKey_putKey_self]
  · intro s a hid hw hc
    have hsave : SqliteStore.SaveAccount s a =
        (Except.ok (), SqliteStore.saveAccountTx s a) := by
      simp [SqliteStore.SaveAccount, hid]
    rw [hsave]
    exact ⟨rfl, sqlite_save_get s a hw hc⟩

/-- A well-keyed account with a peer, a user owning a token, and a policy
owning a rule. -/
def acctWK : Account :=
  { account0 with
    Id := "a1"
    SetupKeys := [("SK1", { Key := "SK1", AccountID := "a1" })]
    Peers := [("p1", { ID := "p1", AccountID := "a1", Key := "PK1",
                       DNSLabel := "d1", LastLogin := 7 })]
    Users := [("u1", { Id := "u1", AccountID := "a1", Issued := "api", LastLogin := 1,
                       PATs := [("t1", { ID := "t1", UserID := "u1",
                                         HashedToken := "h1" })] })]
    Groups := [("g1", { ID := "g1", AccountID := "a1", Name := "All", Issued := "api",
                        Peers := ["p1"] })]
    Routes := [("r1", { ID := "r1", AccountID := "a1", Peer := "p1",
                        Groups := ["g1"] })]
    Policies := [{ ID := "pol1", AccountID := "a1",
                   Rules := [{ ID := "rule1", PolicyID := "pol1", Protocol := "all" }] }]
    NameServerGroups := [("n1", { ID := "n1", AccountID := "a1", Name := "ns" })] }

theorem acctWK_wellKeyed : WellKeyed acctWK := by
  constructor <;> decide

/-- Claim C8, witness: the amended round trip evaluated on acctWK over the
empty stores of both engines. -/
theorem claim8_witness :
    acctWK.Id ≠ "" ∧
    ((FileStore.SaveAccount emptyFileStore acctWK).1 = Except.ok () ∧
     FileStore.GetAccount (FileStore.SaveAccount emptyFileStore acctWK).2 acctWK.Id =
       Except.ok acctWK) ∧
    ((SqliteStore.SaveAccount emptySqliteStore acctWK).1 = Except.ok () ∧
     SqliteStore.GetAccount (SqliteStore.SaveAccount emptySqliteStore acctWK).2 acctWK.Id =
       Except.ok acctWK) :=
  ⟨by decide,
   claim8_amended.1 emptyFileStore acctWK (by decide),
   claim8_amended.2 emptySqliteStore acctWK (by decide) acctWK_wellKeyed
     ⟨fun q hq => absurd hq (List.not_mem_nil q), fun r hr => absurd hr (List.not_mem_nil r)⟩⟩

/- ---------------------------------------------------------------------
Claim C7.
--------------------------------------------------------------------- -/

/-- A peer row owned by account a1 in the SQLite source store. -/
def peerP1 : Peer :=
  { ID := "p1", AccountID := "a1", Key := "PK1", DNSLabel := "d1", LastLogin := 5 }

/-- A SQLite source store with installation ID inst1, one account row a1 and
one peer row p1. -/
def sqliteSrc : SqliteStore :=
  { emptySqliteStore with
    accounts := [acctA1]
    peers := [peerP1]
    installation := some "inst1" }

/-- The account as SqliteStore.GetAllAccounts reconstructs it from
sqliteSrc. -/
def acctA1R : Account := { acctA1 with Peers := [("p1", peerP1)] }

/-- Claim C7, counterexample: the SQLite-to-file conversion does not write
accounts through FileStore.SaveAccount.  After converting sqliteSrc the
account a1 with peer p1 is present in the file store, but no peer-ID index
entry was created, so GetAccountByPeerID p1 reports NotFound - had the
accounts been written through SaveAccount the index would resolve. -/
theorem claim7_counterexample :
    (filestoreFromSqliteStore emptyFileStore sqliteSrc).InstallationID = "inst1" ∧
    findKey (filestoreFromSqliteStore emptyFileStore sqliteSrc).Accounts "a1" =
      some acctA1R ∧
    findKey acctA1R.Peers "p1" = some peerP1 ∧
    (filestoreFromSqliteStore emptyFileStore sqliteSrc).PeerID2AccountID "p1" = none ∧
    (FileStore.GetAccountByPeerID (filestoreFromSqliteStore emptyFileStore sqliteSrc)
        "p1").1 = Except.error StoreErr.notFound := by
  refine ⟨rfl, by decide, rfl, rfl, by decide⟩

theorem save_installation (s : SqliteStore) (a : Account) :
    (SqliteStore.SaveAccount s a).2.installation = s.installation := by
  by_cases h : a.Id = "" <;>
    simp [SqliteStore.SaveAccount, SqliteStore.saveAccountTx, h]

theorem foldl_save_installation (l : List Account) (s : SqliteStore) :
    (l.foldl (fun s2 a => (SqliteStore.SaveAccount s2 a).2) s).installation =
      s.installation := by
  induction l generalizing s with
  | nil => rfl
  | cons a t ih =>
    rw [List.foldl_cons, ih ((SqliteStore.SaveAccount s a).2)]
    exact save_installation s a

/-- Claim C7, amended: the file-to-SQLite conversion writes every account
through SqliteStore.SaveAccount and preserves the installation ID (the
round-trip conjunct assumes a non-empty account ID, since SaveAccount's
transaction fails on an empty one), while the SQLite-to-file conversion
preserves the installation ID but inserts the accounts directly into the
Accounts map, leaving every secondary index of the target untouched
(claim7_counterexample). -/
theorem claim7_amended :
    (∀ (fresh : FileStore) (ss : SqliteStore),
      (filestoreFromSqliteStore fresh ss).InstallationID = ss.GetInstallationID ∧
      (filestoreFromSqliteStore fresh ss).SetupKeyID2AccountID =
        fresh.SetupKeyID2AccountID ∧
      (filestoreFromSqliteStore fresh ss).PeerKeyID2AccountID =
        fresh.PeerKeyID2AccountID ∧
      (filestoreFromSqliteStore fresh ss).PeerID2AccountID = fresh.PeerID2AccountID ∧
      (filestoreFromSqliteStore fresh ss).UserID2AccountID = fresh.UserID2AccountID ∧
      (filestoreFromSqliteStore fresh ss).PrivateDomain2AccountID =
        fresh.PrivateDomain2AccountID ∧
      (filestoreFromSqliteStore fresh ss).HashedPAT2TokenID = fresh.HashedPAT2TokenID ∧
      (filestoreFromSqliteStore fresh ss).TokenID2UserID = fresh.TokenID2UserID) ∧
    (∀ fs : FileStore,
      (sqliteFromFileStore emptySqliteStore fs).GetInstallationID = fs.InstallationID) ∧
    (∀ (fs : FileStore) (aid : String) (a : Account),
      fs.Accounts = [(aid, a)] → a.Id ≠ "" → WellKeyed a →
      SqliteStore.GetAccount (sqliteFromFileStore emptySqliteStore fs) a.Id =
        Except.ok a) := by
  refine ⟨fun fresh ss => ⟨rfl, rfl, rfl, rfl, rfl, rfl, rfl, rfl⟩, ?_, ?_⟩
  · intro fs
    have h : (List.foldl (fun s2 a => (SqliteStore.SaveAccount s2 a).2)
        (SqliteStore.SaveInstallationID emptySqliteStore fs.InstallationID)
        fs.GetAllAccounts).installation = some fs.InstallationID := by
      rw [foldl_save_installation]
      rfl
    simp [sqliteFromFileStore, SqliteStore.GetInstallationID, h]
  · intro fs aid a hfs hid hw
    have hall : fs.GetAllAccounts = [a] := by
      simp [FileStore.GetAllAccounts, hfs]
    have hc : CleanFor (SqliteStore.SaveInstallationID emptySqliteStore fs.InstallationID)
        a := ⟨fun q hq => absurd hq (List.not_mem_nil q),
              fun r hr => absurd hr (List.not_mem_nil r)⟩
    have hsave : SqliteStore.SaveAccount
        (SqliteStore.SaveInstallationID emptySqliteStore fs.InstallationID) a =
        (Except.ok (), SqliteStore.saveAccountTx
          (SqliteStore.SaveInstallationID emptySqliteStore fs.InstallationID) a) := by
      simp [SqliteStore.SaveAccount, hid]
    simp only [sqliteFromFileStore, hall, List.foldl_cons, List.foldl_nil, hsave]
    exact sqlite_save_get _ a hw hc

/-- A single-account file store feeding the file-to-SQLite conversion. -/
def fsOne : FileStore :=
  { emptyFileStore with Accounts := [("a1", acctWK)], InstallationID := "i7" }

/-- Claim C7, witness: the amended conversion properties evaluated on
concrete stores in both directions. -/
theorem claim7_witness :
    ((filestoreFromSqliteStore emptyFileStore sqliteSrc).InstallationID =
        sqliteSrc.GetInstallationID ∧
      (filestoreFromSqliteStore emptyFileStore sqliteSrc).SetupKeyID2AccountID =
        emptyFileStore.SetupKeyID2AccountID ∧
      (filestoreFromSqliteStore emptyFileStore sqliteSrc).PeerKeyID2AccountID =
        emptyFileStore.PeerKeyID2AccountID ∧
      (filestoreFromSqliteStore emptyFileStore sqliteSrc).PeerID2AccountID =
        emptyFileStore.PeerID2AccountID ∧
      (filestoreFromSqliteStore emptyFileStore sqliteSrc).UserID2AccountID =
        emptyFileStore.UserID2AccountID ∧
      (filestoreFromSqliteStore emptyFileStore sqliteSrc).PrivateDomain2AccountID =
        emptyFileStore.PrivateDomain2AccountID ∧
      (filestoreFromSqliteStore emptyFileStore sqliteSrc).HashedPAT2TokenID =
        emptyFileStore.HashedPAT2TokenID ∧
      (filestoreFromSqliteStore emptyFileStore sqliteSrc).TokenID2UserID =
        emptyFileStore.TokenID2UserID) ∧
    (sqliteFromFileStore emptySqliteStore fsOne).GetInstallationID =
      fsOne.InstallationID ∧
    SqliteStore.GetAccount (sqliteFromFileStore emptySqliteStore fsOne) acctWK.Id =
      Except.ok acctWK :=
  ⟨claim7_amended.1 emptyFileStore sqliteSrc,
   claim7_amended.2.1 fsOne,
   claim7_amended.2.2 fsOne "a1" acctWK rfl (by decide) acctWK_wellKeyed⟩

/- ---------------------------------------------------------------------
Helper lemmas about the migration pass.
--------------------------------------------------------------------- -/

/-- Map key, peer ID, public key and last login of a peer entry - everything
about a peer that the DNS-label backfill must not touch. -/
def peerSig (q : String × Peer) : String × String × String × Nat :=
  (q.1, q.2.ID, q.2.Key, q.2.LastLogin)

theorem addPeerLabels_sig (ps : List (String × Peer)) :
    (addPeerLabels ps).map peerSig = ps.map peerSig := by
  induction ps with
  | nil => rfl
  | cons h t ih =>
    have hstep : addPeerLabels (h :: t) =
        (if h.2.DNSLabel = "" then (h.1, { h.2 with DNSLabel := "peer" }) else h) ::
          addPeerLabels t := rfl
    rw [hstep, List.map_cons, List.map_cons, ih]
    by_cases hl : h.2.DNSLabel = "" <;> simp [peerSig, hl]

theorem labelStep_sig (ps : List (String × Peer)) :
    (labelStep ps).map peerSig = ps.map peerSig := by
  unfold labelStep
  split
  · exact addPeerLabels_sig ps
  · rfl

theorem preMigrate_Routes (a : Account) : (preMigrate a).Routes = a.Routes := by
  by_cases h : a.Settings.isNone <;> simp [preMigrate, h]

theorem preMigrate_Peers (a : Account) : (preMigrate a).Peers = labelStep a.Peers := by
  by_cases h : a.Settings.isNone <;> simp [preMigrate, h]

theorem preMigrate_Groups (a : Account) :
    (preMigrate a).Groups = a.Groups.map
      (fun p => if p.2.Issued = "" then (p.1, { p.2 with Issued := GroupIssuedAPI })
        else p) := by
  by_cases h : a.Settings.isNone <;> simp [preMigrate, h]

theorem idxStep_counter (st : RestoreState) (aid : String) (a : Account) :
    (idxStep st aid a).counter = st.counter := rfl

theorem findGroupAll_issued_isSome (gs : List (String × Group)) :
    (findGroupAll (gs.map (fun p => if p.2.Issued = "" then
      (p.1, { p.2 with Issued := GroupIssuedAPI }) else p))).isSome =
    (findGroupAll gs).isSome := by
  unfold findGroupAll
  induction gs with
  | nil => rfl
  | cons h t ih =>
    obtain ⟨k1, g⟩ := h
    by_cases hi : g.Issued = "" <;> by_cases hn : g.Name = "All" <;>
      simp [List.find?_cons, hi, hn] <;> simpa using ih

/-- findKey through a key-preserving entry transformation. -/
theorem findKey_map_kp {α β : Type} (f : String × α → String × β)
    (hf : ∀ p, (f p).1 = p.1) (l : List (String × α)) (k : String) :
    findKey (l.map f) k = Option.map (fun v => (f (k, v)).2) (findKey l k) := by
  induction l with
  | nil => rfl
  | cons h t ih =>
    obtain ⟨k1, v⟩ := h
    rw [List.map_cons]
    by_cases hk : k1 = k
    · subst hk
      have h2 : (f (k1, v)).1 = k1 := hf (k1, v)
      rw [findKey_cons, findKey_cons, h2]
      simp
    · have h2 : (f (k1, v)).1 = k1 := hf (k1, v)
      rw [findKey_cons, findKey_cons, h2]
      simp [hk, ih]

/- ---------------------------------------------------------------------
Claim C3.
--------------------------------------------------------------------- -/

/-- A legacy peer with an empty ID and a zero last login. -/
def legacyPeer : Peer :=
  { ID := "", AccountID := "", Key := "KEY1", DNSLabel := "d", LastLogin := 0 }

/-- A legacy account with no groups at all (so the All group cannot be
resolved) and one legacy peer. -/
def acctNoAll : Account :=
  { account0 with
    Id := "a1"
    Peers := [("KEY1", legacyPeer)]
    Routes := [("r1", { ID := "r1", AccountID := "a1", Peer := "KEY1", Groups := [] })] }

/-- Concrete migration parameters: the clock reads 5 and the xid supply
yields x, xx, xxx, ... -/
def migP : MigParams :=
  { now := 5, gen := fun n => String.mk (List.replicate (n + 1) 'x') }

/-- What the migration pass leaves of acctNoAll: only the default Settings
are filled in. -/
def acctNoAllOut : Account :=
  { acctNoAll with
    Settings := some { PeerLoginExpirationEnabled := false,
                       PeerLoginExpiration := DefaultPeerLoginExpiration } }

/-- Claim C3, counterexample: when the All group cannot be resolved the
restore loop continues with the next account, skipping the peer identity
migration too, not only the route-group backfill.  After the pass the legacy
peer of acctNoAll still has an empty ID and a zero last login, and no new
peer-ID was generated. -/
theorem claim3_counterexample :
    findGroupAll acctNoAll.Groups = none ∧
    findKey (restore migP [("a1", acctNoAll)] "").Accounts "a1" = some acctNoAllOut ∧
    findKey acctNoAllOut.Peers "KEY1" = some legacyPeer ∧
    legacyPeer.ID = "" ∧ legacyPeer.LastLogin = 0 := by
  refine ⟨rfl, by decide, rfl, rfl, rfl⟩

/-- Claim C3, amended: when the account's All group cannot be resolved, the
restore loop skips the route-group backfill and the whole peer identity
migration for that account: the account is left exactly at the
pre-migration rewrites, its routes are unchanged, every peer keeps its map
key, ID and last login, and the xid counter does not advance (so the
remaining accounts of the loop are processed exactly as if this account had
been absent). -/
theorem claim3_amended (p : MigParams) (st : RestoreState) (aid : String) (a : Account)
    (h : findGroupAll (preMigrate a).Groups = none) :
    (restoreAccount p st aid a).2 = preMigrate a ∧
    (preMigrate a).Routes = a.Routes ∧
    ((preMigrate a).Peers.map peerSig) = a.Peers.map peerSig ∧
    (restoreAccount p st aid a).1.counter = st.counter := by
  refine ⟨?_, preMigrate_Routes a, ?_, ?_⟩
  · simp [restoreAccount, h]
  · rw [preMigrate_Peers]
    exact labelStep_sig a.Peers
  · simp [restoreAccount, h, idxStep_counter]

/-- Claim C3, witness: the amended skip evaluated on acctNoAll. -/
theorem claim3_witness :
    findGroupAll (preMigrate acctNoAll).Groups = none ∧
    ((restoreAccount migP emptyRestoreState "a1" acctNoAll).2 = preMigrate acctNoAll ∧
     (preMigrate acctNoAll).Routes = acctNoAll.Routes ∧
     ((preMigrate acctNoAll).Peers.map peerSig) = acctNoAll.Peers.map peerSig ∧
     (restoreAccount migP emptyRestoreState "a1" acctNoAll).1.counter =
       emptyRestoreState.counter) :=
  ⟨by decide, claim3_amended migP emptyRestoreState "a1" acctNoAll (by decide)⟩

/- ---------------------------------------------------------------------
Claim C4.
--------------------------------------------------------------------- -/

theorem labelStep_singleton (k : String) (pr : Peer) :
    labelStep [(k, pr)] =
      [(k, if pr.DNSLabel = "" then { pr with DNSLabel := "peer" } else pr)] := by
  by_cases hl : pr.DNSLabel = "" <;>
    simp [labelStep, getPeerDNSLabels, addPeerLabels, List.dedup, hl]

theorem findKey_rewriteGroups (migs : List (String × Peer))
    (gs : List (String × Group)) (kk : String) :
    findKey (rewriteGroups migs gs) kk =
      Option.map (fun v => { v with Peers := (v.Peers.map (fun e =>
        match findKey migs e with
        | some pr3 => pr3.ID
        | none => e)) }) (findKey gs kk) := by
  unfold rewriteGroups
  apply findKey_map_kp
  intro q
  rfl

theorem findKey_rewriteRoutes (migs : List (String × Peer))
    (rs : List (String × Route)) (kk : String) :
    findKey (rewriteRoutes migs rs) kk =
      Option.map (fun v => match findKey migs v.Peer with
        | some pr3 => { v with Peer := pr3.ID }
        | none => v) (findKey rs kk) := by
  unfold rewriteRoutes
  apply findKey_map_kp
  intro q
  rfl

/-- Claim C4: peer re-keying.  For a legacy account whose Peers map holds a
single peer keyed by its public key with an empty ID, whose All group
resolves, with a group gid and a route rid on record: after the per-account
migration the Peers map is keyed by the freshly generated ID (the old key is
gone; the peer also gets a DNS label backfilled when it lacked one, and a
last-login stamp when it was zero), the group's peer-list references to the
old key and the route's Peer field all equal the new ID, and the peer-ID
index maps the new ID to the account. -/
theorem claim4_theorem (p : MigParams) (st : RestoreState) (aid : String)
    (a : Account) (k : String) (pr : Peer) (gid : String) (g : Group)
    (rid : String) (r0 : Route)
    (hps : a.Peers = [(k, pr)])
    (hprid : pr.ID = "")
    (hAll : (findGroupAll a.Groups).isSome = true)
    (hg : findKey a.Groups gid = some g)
    (hr : findKey a.Routes rid = some r0)
    (hrp : r0.Peer = k)
    (hgen : p.gen st.counter ≠ "") :
    (restoreAccount p st aid a).2.Peers =
      [(p.gen st.counter,
        { pr with DNSLabel := if pr.DNSLabel = "" then "peer" else pr.DNSLabel, LastLogin := if pr.LastLogin = 0 then p.now else pr.LastLogin, ID := p.gen st.counter })] ∧
    p.gen st.counter ≠ "" ∧
    Option.map Group.Peers (findKey (restoreAccount p st aid a).2.Groups gid) =
      some (g.Peers.map (fun e => if k = e then p.gen st.counter else e)) ∧
    Option.map Route.Peer (findKey (restoreAccount p st aid a).2.Routes rid) =
      some (p.gen st.counter) ∧
    (restoreAccount p st aid a).1.peerIdIdx (p.gen st.counter) = some aid := by
  have ha5p : (preMigrate a).Peers =
      [(k, if pr.DNSLabel = "" then { pr with DNSLabel := "peer" } else pr)] := by
    rw [preMigrate_Peers, hps, labelStep_singleton]
  -- the All group still resolves after the issuer backfill
  obtain ⟨allG, hfa⟩ : ∃ g2, findGroupAll (preMigrate a).Groups = some g2 := by
    have h1 := findGroupAll_issued_isSome a.Groups
    rw [← preMigrate_Groups] at h1
    rw [hAll] at h1
    exact Option.isSome_iff_exists.mp h1
  -- the peer pass generates one ID
  have hm : migratePass1 p
      [(k, if pr.DNSLabel = "" then { pr with DNSLabel := "peer" } else pr)] st.counter =
      ([(k, { pr with DNSLabel := if pr.DNSLabel = "" then "peer" else pr.DNSLabel, LastLogin := if pr.LastLogin = 0 then p.now else pr.LastLogin, ID := p.gen st.counter })],
       [(k, { pr with DNSLabel := if pr.DNSLabel = "" then "peer" else pr.DNSLabel, LastLogin := if pr.LastLogin = 0 then p.now else pr.LastLogin, ID := p.gen st.counter })],
       st.counter + 1) := by
    by_cases hl : pr.DNSLabel = "" <;> by_cases h0 : pr.LastLogin = 0 <;>
      simp [migratePass1, hl, h0, hprid]
  -- the whole per-account body
  have hR : restoreAccount p st aid a =
      ({ idxStep st aid a with
          peerIdIdx := idxPut (idxStep st aid a).peerIdIdx (p.gen st.counter) aid
          counter := st.counter + 1 },
       { preMigrate a with
          Routes := rewriteRoutes
            [(k, { pr with DNSLabel := if pr.DNSLabel = "" then "peer" else pr.DNSLabel, LastLogin := if pr.LastLogin = 0 then p.now else pr.LastLogin, ID := p.gen st.counter })]
            ((preMigrate a).Routes.map
              (fun q => if q.2.Groups = [] then (q.1, { q.2 with Groups := [allG.ID] })
                else q))
          Peers := [(p.gen st.counter,
            { pr with DNSLabel := if pr.DNSLabel = "" then "peer" else pr.DNSLabel, LastLogin := if pr.LastLogin = 0 then p.now else pr.LastLogin, ID := p.gen st.counter })]
          Groups := rewriteGroups
            [(k, { pr with DNSLabel := if pr.DNSLabel = "" then "peer" else pr.DNSLabel, LastLogin := if pr.LastLogin = 0 then p.now else pr.LastLogin, ID := p.gen st.counter })]
            (preMigrate a).Groups }) := by
    simp only [restoreAccount, hfa, idxStep_counter, ha5p, hm]
    simp [rekeyPeers, eraseKey, putKey, putMigsIdx, List.filter]
  -- group lookup after the issuer backfill
  have hg1 : findKey ((preMigrate a).Groups) gid =
      some (if g.Issued = "" then { g with Issued := GroupIssuedAPI } else g) := by
    rw [preMigrate_Groups, findKey_map_kp _ (fun q => by
      by_cases hq : q.2.Issued = "" <;> simp [hq]), hg]
    by_cases hq : g.Issued = "" <;> simp [hq]
  -- route lookup after the group backfill
  have hr1 : findKey ((preMigrate a).Routes.map
      (fun q => if q.2.Groups = [] then (q.1, { q.2 with Groups := [allG.ID] })
        else q)) rid =
      some (if r0.Groups = [] then { r0 with Groups := [allG.ID] } else r0) := by
    rw [findKey_map_kp _ (fun q => by
      by_cases hq : q.2.Groups = [] <;> simp [hq]), preMigrate_Routes, hr]
    by_cases hq : r0.Groups = [] <;> simp [hq]
  refine ⟨?_, hgen, ?_, ?_, ?_⟩
  · rw [hR]
  · rw [hR]
    set pr2 : Peer :=
      { pr with DNSLabel := if pr.DNSLabel = "" then "peer" else pr.DNSLabel, LastLogin := if pr.LastLogin = 0 then p.now else pr.LastLogin, ID := p.gen st.counter } with hpr2
    set gfix : Group := if g.Issued = "" then { g with Issued := GroupIssuedAPI } else g
      with hgfix
    show Option.map Group.Peers
      (findKey (rewriteGroups [(k, pr2)] (preMigrate a).Groups) gid) = _
    rw [findKey_rewriteGroups, hg1]
    show some ({ gfix with Peers := (gfix.Peers.map (fun e =>
      match findKey [(k, pr2)] e with
      | some pr3 => pr3.ID
      | none => e)) } : Group).Peers = _
    have hpeq : gfix.Peers = g.Peers := by
      rw [hgfix]
      by_cases hq : g.Issued = "" <;> simp [hq]
    show some (gfix.Peers.map (fun e =>
      match findKey [(k, pr2)] e with
      | some pr3 => pr3.ID
      | none => e)) = _
    rw [hpeq]
    congr 1
    apply List.map_congr_left
    intro e _
    by_cases he : k = e <;> simp [findKey, he, hpr2]
  · rw [hR]
    set pr2 : Peer :=
      { pr with DNSLabel := if pr.DNSLabel = "" then "peer" else pr.DNSLabel, LastLogin := if pr.LastLogin = 0 then p.now else pr.LastLogin, ID := p.gen st.counter } with hpr2
    set rfix : Route := if r0.Groups = [] then { r0 with Groups := [allG.ID] } else r0
      with hrfix
    show Option.map Route.Peer
      (findKey (rewriteRoutes [(k, pr2)] ((preMigrate a).Routes.map
        (fun q => if q.2.Groups = [] then (q.1, { q.2 with Groups := [allG.ID] })
          else q))) rid) = _
    rw [findKey_rewriteRoutes, hr1]
    show some ((match findKey [(k, pr2)] rfix.Peer with
      | some pr3 => { rfix with Peer := pr3.ID }
      | none => rfix) : Route).Peer = _
    have hpeer : rfix.Peer = k := by
      rw [hrfix]
      by_cases hq : r0.Groups = [] <;> simp [hq, hrp]
    rw [hpeer]
    simp [findKey, hpr2]
  · rw [hR]
    exact idxPut_self _ _ _

/-- A legacy peer keyed by its public key PK with empty ID. -/
def peerLeg : Peer :=
  { ID := "", AccountID := "", Key := "PK", DNSLabel := "", LastLogin := 0 }

/-- The built-in All group referencing the legacy peer by its public key. -/
def gAllVal : Group :=
  { ID := "gidAll", AccountID := "", Name := "All", Issued := "", Peers := ["PK"] }

/-- A route assigned to the legacy peer by its public key. -/
def routeLeg : Route :=
  { ID := "r1", AccountID := "", Peer := "PK", Groups := [] }

/-- A pre-migration account in the oldest peer-keyed shape. -/
def acctLegacy : Account :=
  { account0 with
    Id := "a1"
    Peers := [("PK", peerLeg)]
    Groups := [("gAll", gAllVal)]
    Routes := [("r1", routeLeg)] }

/-- Claim C4, witness: the re-keying evaluated on acctLegacy with the
concrete migration parameters migP. -/
theorem claim4_witness :
    (acctLegacy.Peers = [("PK", peerLeg)] ∧ peerLeg.ID = "" ∧
     (findGroupAll acctLegacy.Groups).isSome = true ∧
     findKey acctLegacy.Groups "gAll" = some gAllVal ∧
     findKey acctLegacy.Routes "r1" = some routeLeg ∧
     routeLeg.Peer = "PK" ∧
     migP.gen emptyRestoreState.counter ≠ "") ∧
    ((restoreAccount migP emptyRestoreState "a1" acctLegacy).2.Peers =
      [(migP.gen emptyRestoreState.counter,
        { peerLeg with
          DNSLabel := if peerLeg.DNSLabel = "" then "peer" else peerLeg.DNSLabel,
          LastLogin := if peerLeg.LastLogin = 0 then migP.now else peerLeg.LastLogin,
          ID := migP.gen emptyRestoreState.counter })] ∧
     migP.gen emptyRestoreState.counter ≠ "" ∧
     Option.map Group.Peers
       (findKey (restoreAccount migP emptyRestoreState "a1" acctLegacy).2.Groups
         "gAll") =
       some (gAllVal.Peers.map
         (fun e => if "PK" = e then migP.gen emptyRestoreState.counter else e)) ∧
     Option.map Route.Peer
       (findKey (restoreAccount migP emptyRestoreState "a1" acctLegacy).2.Routes
         "r1") = some (migP.gen emptyRestoreState.counter) ∧
     (restoreAccount migP emptyRestoreState "a1" acctLegacy).1.peerIdIdx
       (migP.gen emptyRestoreState.counter) = some "a1") :=
  ⟨⟨rfl, rfl, by decide, by decide, by decide, rfl, by decide⟩,
   claim4_theorem migP emptyRestoreState "a1" acctLegacy "PK" peerLeg "gAll" gAllVal
     "r1" routeLeg rfl rfl (by decide) (by decide) (by decide) rfl (by decide)⟩

/- ---------------------------------------------------------------------
Claim C9: heap model for copy isolation.

Go hands out *Account pointers; FileStore.GetAccount returns
account.Copy() (line 501) and GetAllAccounts a.Copy() per account (line
475), never the stored pointer.  To make caller-side mutation
expressible, the aggregate heap is explicit: a map from references to
Account values (one cell per aggregate, since the Lean Account embeds
all nested entities by value, a mutation anywhere inside the aggregate
is an update of its cell).  Copy is modelled from the spec as
allocating a fresh reference holding an equal value (Account.Copy's body
is not in src/; the spec calls it an explicit, total deep copy).
--------------------------------------------------------------------- -/

def findRef (l : List (Nat × Account)) (r : Nat) : Option Account :=
  match l with
  | [] => none
  | (r1, a) :: t => if r1 = r then some a else findRef t r

/-- A caller writing through a reference: replace the value in that cell. -/
def writeRef (l : List (Nat × Account)) (r : Nat) (a : Account) :
    List (Nat × Account) :=
  match l with
  | [] => []
  | (r1, a1) :: t => if r1 = r then (r1, a) :: t else (r1, a1) :: writeRef t r a

/-- The file store with the aggregate heap explicit: the Accounts map holds
references into the heap. -/
structure HeapStore : Type where
  heap : List (Nat × Account)
  next : Nat
  accountRefs : List (String × Nat)
  deriving DecidableEq, Repr

/-- Well-formedness: every live reference was allocated below the
allocation counter. -/
def HeapStore.wf (hs : HeapStore) : Prop :=
  (∀ q ∈ hs.accountRefs, q.2 < hs.next) ∧ (∀ q ∈ hs.heap, q.1 < hs.next)

/-- The canonical stored value of an account: what the store itself sees. -/
def HeapStore.read (hs : HeapStore) (id : String) : Option Account :=
  match findKey hs.accountRefs id with
  | none => none
  | some r => findRef hs.heap r

/-- FileStore.GetAccount in the heap model: resolve the stored reference and
return a freshly allocated copy of the value; the stored reference is never
handed out. -/
def HeapStore.getAccount (hs : HeapStore) (id : String) : Option Nat × HeapStore :=
  match findKey hs.accountRefs id with
  | none => (none, hs)
  | some r =>
    match findRef hs.heap r with
    | none => (none, hs)
    | some a =>
      (some hs.next,
       { hs with heap := hs.heap ++ [(hs.next, a)], next := hs.next + 1 })

/-- FileStore.GetAllAccounts in the heap model: one fresh copy per stored
account. -/
def allocCopies (hs : HeapStore) (l : List (String × Nat)) : List Nat × HeapStore :=
  match l with
  | [] => ([], hs)
  | (_, r) :: t =>
    match findRef hs.heap r with
    | none => allocCopies hs t
    | some a =>
      let q := allocCopies
        { hs with heap := hs.heap ++ [(hs.next, a)], next := hs.next + 1 } t
      (hs.next :: q.1, q.2)

def HeapStore.getAllAccounts (hs : HeapStore) : List Nat × HeapStore :=
  allocCopies hs hs.accountRefs

/-- The caller mutating the object behind a returned reference. -/
def HeapStore.write (hs : HeapStore) (r : Nat) (a : Account) : HeapStore :=
  { hs with heap := writeRef hs.heap r a }

theorem findRef_append_ne (h : List (Nat × Account)) (n : Nat) (a : Account)
    (r : Nat) (hne : r ≠ n) : findRef (h ++ [(n, a)]) r = findRef h r := by
  have hne2 : ¬ n = r := fun h2 => hne h2.symm
  induction h with
  | nil => simp [findRef, hne2]
  | cons q t ih =>
    obtain ⟨r1, a1⟩ := q
    by_cases hr : r1 = r <;> simp [findRef, hr, ih]

theorem findRef_writeRef_ne (h : List (Nat × Account)) (r : Nat) (a : Account)
    (r2 : Nat) (hne : r2 ≠ r) : findRef (writeRef h r a) r2 = findRef h r2 := by
  have hne2 : ¬ r = r2 := fun h2 => hne h2.symm
  induction h with
  | nil => rfl
  | cons q t ih =>
    obtain ⟨r1, a1⟩ := q
    by_cases hr : r1 = r
    · subst hr
      simp [writeRef, findRef, hne2]
    · by_cases hr2 : r1 = r2 <;> simp [writeRef, findRef, hr, hr2, ih, hne]

theorem allocCopies_spec (l : List (String × Nat)) (hs : HeapStore)
    (hheap : ∀ q ∈ hs.heap, q.1 < hs.next) :
    hs.next ≤ (allocCopies hs l).2.next ∧
    (allocCopies hs l).2.accountRefs = hs.accountRefs ∧
    (∀ q ∈ (allocCopies hs l).2.heap, q.1 < (allocCopies hs l).2.next) ∧
    (∀ r ∈ (allocCopies hs l).1, hs.next ≤ r) ∧
    (∀ r2 < hs.next, findRef (allocCopies hs l).2.heap r2 = findRef hs.heap r2) := by
  induction l generalizing hs with
  | nil =>
    exact ⟨Nat.le_refl _, rfl, hheap, fun r hr => absurd hr (List.not_mem_nil r),
      fun r2 _ => rfl⟩
  | cons q t ih =>
    obtain ⟨id1, r⟩ := q
    cases hfr : findRef hs.heap r with
    | none =>
      have hstep : allocCopies hs ((id1, r) :: t) = allocCopies hs t := by
        simp [allocCopies, hfr]
      rw [hstep]
      exact ih hs hheap
    | some a =>
      have hstep : allocCopies hs ((id1, r) :: t) =
          (hs.next :: (allocCopies
            { hs with heap := hs.heap ++ [(hs.next, a)], next := hs.next + 1 } t).1,
           (allocCopies
            { hs with heap := hs.heap ++ [(hs.next, a)], next := hs.next + 1 } t).2) := by
        simp [allocCopies, hfr]
      set hs2 : HeapStore :=
        { hs with heap := hs.heap ++ [(hs.next, a)], next := hs.next + 1 } with hhs2
      have hheap2 : ∀ q ∈ hs2.heap, q.1 < hs2.next := by
        intro q hq
        rcases List.mem_append.mp hq with h1 | h1
        · exact Nat.lt_succ_of_lt (hheap q h1)
        · rw [List.mem_singleton] at h1
          subst h1
          exact Nat.lt_succ_self _
      obtain ⟨ih1, ih2, ih3, ih4, ih5⟩ := ih hs2 hheap2
      rw [hstep]
      refine ⟨Nat.le_trans (Nat.le_succ _) ih1, ih2, ih3, ?_, ?_⟩
      · intro r3 hr3
        rcases List.mem_cons.mp hr3 with h1 | h1
        · exact h1 ▸ Nat.le_refl _
        · exact Nat.le_trans (Nat.le_succ _) (ih4 r3 h1)
      · intro r2 hr2
        have h1 := ih5 r2 (Nat.lt_succ_of_lt hr2)
        rw [h1]
        exact findRef_append_ne hs.heap hs.next a r2 (Nat.ne_of_lt hr2)

/-- Claim C9: copy isolation.  The account value a GetAccount (or
GetAllAccounts) caller receives lives at a freshly allocated reference;
writing any account value through that reference changes neither what a
subsequent read of any stored account returns, nor did the copy itself
disturb the stored state. -/
theorem claim9_theorem :
    (∀ (hs : HeapStore) (id : String) (r : Nat) (hs1 : HeapStore),
      hs.wf →
      hs.getAccount id = (some r, hs1) →
      ∀ (a1 : Account) (id2 : String),
        (hs1.write r a1).read id2 = hs1.read id2 ∧ hs1.read id2 = hs.read id2) ∧
    (∀ (hs : HeapStore) (rs : List Nat) (hs1 : HeapStore),
      hs.wf →
      hs.getAllAccounts = (rs, hs1) →
      ∀ r ∈ rs, ∀ (a1 : Account) (id2 : String),
        (hs1.write r a1).read id2 = hs1.read id2 ∧ hs1.read id2 = hs.read id2) := by
  constructor
  · intro hs id r hs1 hwf hget a1 id2
    unfold HeapStore.getAccount at hget
    cases h1 : findKey hs.accountRefs id with
    | none =>
      simp only [h1] at hget
      simp at hget
    | some r0 =>
      simp only [h1] at hget
      cases h2 : findRef hs.heap r0 with
      | none =>
        simp only [h2] at hget
        simp at hget
      | some a0 =>
        simp only [h2] at hget
        have hr : r = hs.next := by
          have h3 := congrArg Prod.fst hget
          simpa using h3.symm
        have hhs1 : hs1 =
            { hs with heap := hs.heap ++ [(hs.next, a0)], next := hs.next + 1 } := by
          have h3 := congrArg Prod.snd hget
          simpa using h3.symm
        subst hr
        subst hhs1
        unfold HeapStore.write HeapStore.read
        cases h3 : findKey hs.accountRefs id2 with
        | none => simp [h3]
        | some r2 =>
          have hr2 : r2 < hs.next := hwf.1 (id2, r2) (findKey_mem _ _ _ h3)
          have hne : r2 ≠ hs.next := Nat.ne_of_lt hr2
          simp only [h3]
          constructor
          · exact findRef_writeRef_ne _ _ _ _ hne
          · exact findRef_append_ne _ _ _ _ hne
  · intro hs rs hs1 hwf hget r hr a1 id2
    unfold HeapStore.getAllAccounts at hget
    obtain ⟨hle, hrefs, _, hfresh, hpres⟩ := allocCopies_spec hs.accountRefs hs hwf.2
    have hrs : rs = (allocCopies hs hs.accountRefs).1 := by
      have := congrArg Prod.fst hget
      simpa using this.symm
    have hhs1 : hs1 = (allocCopies hs hs.accountRefs).2 := by
      have := congrArg Prod.snd hget
      simpa using this.symm
    subst hrs
    subst hhs1
    unfold HeapStore.write HeapStore.read
    rw [hrefs]
    cases h3 : findKey hs.accountRefs id2 with
    | none => simp
    | some r2 =>
      have hr2 : r2 < hs.next := hwf.1 (id2, r2) (findKey_mem _ _ _ h3)
      have hner : r2 ≠ r := Nat.ne_of_lt (Nat.lt_of_lt_of_le hr2 (hfresh r hr))
      constructor
      · exact findRef_writeRef_ne _ _ _ _ hner
      · exact hpres r2 hr2

/-- A heap store holding acctA1 in cell 0. -/
def heapStore1 : HeapStore :=
  { heap := [(0, acctA1)], next := 1, accountRefs := [("a1", 0)] }

/-- heapStore1 after GetAccount a1 allocated the copy in cell 1. -/
def heapOut : HeapStore :=
  { heap := [(0, acctA1), (1, acctA1)], next := 2, accountRefs := [("a1", 0)] }

theorem heapStore1_wf : heapStore1.wf :=
  ⟨by decide, by decide⟩

/-- Claim C9, witness: copy isolation evaluated on heapStore1 - overwriting
the returned cell 1 with account0 does not change what a read of a1
returns. -/
theorem claim9_witness :
    heapStore1.getAccount "a1" = (some 1, heapOut) ∧
    ((heapOut.write 1 account0).read "a1" = heapOut.read "a1" ∧
      heapOut.read "a1" = heapStore1.read "a1") :=
  ⟨by decide,
   claim9_theorem.1 heapStore1 "a1" 1 heapOut heapStore1_wf (by decide) account0 "a1"⟩

/- ---------------------------------------------------------------------
Claim C5: machinery.  The index maps built during restore are folds of
single insertions; applyPairs makes the inserted (key, value) pair lists
explicit so that the two runs can be compared pointwise.
--------------------------------------------------------------------- -/

def applyPairs (m : Idx) (l : List (String × String)) : Idx :=
  match l with
  | [] => m
  | (k, v) :: t => applyPairs (idxPut m k v) t

theorem applyPairs_append (m : Idx) (l1 l2 : List (String × String)) :
    applyPairs m (l1 ++ l2) = applyPairs (applyPairs m l1) l2 := by
  induction l1 generalizing m with
  | nil => rfl
  | cons q t ih =>
    obtain ⟨k, v⟩ := q
    rw [List.cons_append]
    exact ih (idxPut m k v)

theorem applyPairs_congr (m1 m2 : Idx) (l : List (String × String))
    (h : ∀ k, m1 k = m2 k) : ∀ k, applyPairs m1 l k = applyPairs m2 l k := by
  induction l generalizing m1 m2 with
  | nil => exact h
  | cons q t ih =>
    obtain ⟨k1, v1⟩ := q
    exact ih (idxPut m1 k1 v1) (idxPut m2 k1 v1) (fun k => by
      by_cases hk : k = k1 <;> simp [idxPut, hk, h k])

/-- Inserting constant-value pairs only tests key membership. -/
theorem applyPairs_const (m : Idx) (l : List (String × String)) (v : String)
    (hv : ∀ q ∈ l, q.2 = v) (k : String) :
    applyPairs m l k = if k ∈ l.map Prod.fst then some v else m k := by
  induction l generalizing m with
  | nil => simp [applyPairs]
  | cons q t ih =>
    obtain ⟨k1, v1⟩ := q
    have hv1 : v1 = v := hv (k1, v1) (List.mem_cons_self _ _)
    have hstep : applyPairs m ((k1, v1) :: t) = applyPairs (idxPut m k1 v1) t := rfl
    rw [hstep, ih (idxPut m k1 v1) (fun q hq => hv q (List.mem_cons_of_mem _ hq))]
    by_cases hm : k ∈ t.map Prod.fst
    · simp [hm]
    · by_cases hk : k = k1 <;> simp [hm, hk, idxPut, hv1]

/-- Two constant-value insert lists with the same key set have the same
pointwise effect over pointwise-equal bases. -/
theorem applyPairs_const_congr (m1 m2 : Idx) (l1 l2 : List (String × String))
    (v : String) (hv1 : ∀ q ∈ l1, q.2 = v) (hv2 : ∀ q ∈ l2, q.2 = v)
    (hkeys : ∀ k, k ∈ l1.map Prod.fst ↔ k ∈ l2.map Prod.fst)
    (hm : ∀ k, m1 k = m2 k) (k : String) :
    applyPairs m1 l1 k = applyPairs m2 l2 k := by
  rw [applyPairs_const m1 l1 v hv1 k, applyPairs_const m2 l2 v hv2 k]
  by_cases h1 : k ∈ l1.map Prod.fst
  · simp [h1, (hkeys k).mp h1]
  · have h2 : k ∉ l2.map Prod.fst := fun hc => h1 ((hkeys k).mpr hc)
    simp [h1, h2, hm k]

/-- The inserted pair lists of the per-account index rebuild. -/
def setupPairs (aid : String) (a : Account) : List (String × String) :=
  a.SetupKeys.map (fun q => (goToUpper q.1, aid))

def peerKeyPairs (aid : String) (ps : List (String × Peer)) :
    List (String × String) :=
  ps.map (fun q => (q.2.Key, aid))

def peerIdPairs (aid : String) (ps : List (String × Peer)) :
    List (String × String) :=
  ps.map (fun q => (q.2.ID, aid))

def userPairs (aid : String) (a : Account) : List (String × String) :=
  a.Users.map (fun q => (q.2.Id, aid))

def tokenPairs (a : Account) : List (String × String) :=
  a.Users.flatMap (fun q => q.2.PATs.map (fun t2 => (t2.2.ID, q.2.Id)))

def hashedPairs (a : Account) : List (String × String) :=
  a.Users.flatMap (fun q => q.2.PATs.map (fun t2 => (t2.2.HashedToken, t2.2.ID)))

theorem putSetupKeysIdx_eq (m : Idx) (aid : String) (ks : List (String × SetupKey)) :
    putSetupKeysIdx m aid ks = applyPairs m (ks.map (fun q => (goToUpper q.1, aid))) := by
  induction ks generalizing m with
  | nil => rfl
  | cons q t ih =>
    obtain ⟨k, v⟩ := q
    exact ih (idxPut m (goToUpper k) aid)

theorem putPeersIdx_fst (mk mi : Idx) (aid : String) (ps : List (String × Peer)) :
    (putPeersIdx mk mi aid ps).1 = applyPairs mk (peerKeyPairs aid ps) := by
  induction ps generalizing mk mi with
  | nil => rfl
  | cons q t ih =>
    obtain ⟨k, v⟩ := q
    exact ih (idxPut mk v.Key aid) (idxPut mi v.ID aid)

theorem putPeersIdx_snd (mk mi : Idx) (aid : String) (ps : List (String × Peer)) :
    (putPeersIdx mk mi aid ps).2 = applyPairs mi (peerIdPairs aid ps) := by
  induction ps generalizing mk mi with
  | nil => rfl
  | cons q t ih =>
    obtain ⟨k, v⟩ := q
    exact ih (idxPut mk v.Key aid) (idxPut mi v.ID aid)

theorem putPATsIdx_fst (mt mh : Idx) (uid : String)
    (ts : List (String × PersonalAccessToken)) :
    (putPATsIdx mt mh uid ts).1 =
      applyPairs mt (ts.map (fun t2 => (t2.2.ID, uid))) := by
  induction ts generalizing mt mh with
  | nil => rfl
  | cons q t ih =>
    obtain ⟨k, v⟩ := q
    exact ih (idxPut mt v.ID uid) (idxPut mh v.HashedToken v.ID)

theorem putPATsIdx_snd (mt mh : Idx) (uid : String)
    (ts : List (String × PersonalAccessToken)) :
    (putPATsIdx mt mh uid ts).2 =
      applyPairs mh (ts.map (fun t2 => (t2.2.HashedToken, t2.2.ID))) := by
  induction ts generalizing mt mh with
  | nil => rfl
  | cons q t ih =>
    obtain ⟨k, v⟩ := q
    exact ih (idxPut mt v.ID uid) (idxPut mh v.HashedToken v.ID)

theorem putUsersIdx_fst (mu mt mh : Idx) (aid : String) (us : List (String × User)) :
    (putUsersIdx mu mt mh aid us).1 =
      applyPairs mu (us.map (fun q => (q.2.Id, aid))) := by
  induction us generalizing mu mt mh with
  | nil => rfl
  | cons q t ih =>
    obtain ⟨k, v⟩ := q
    exact ih (idxPut mu v.Id aid) (putPATsIdx mt mh v.Id v.PATs).1
      (putPATsIdx mt mh v.Id v.PATs).2

theorem putUsersIdx_token (mu mt mh : Idx) (aid : String) (us : List (String × User)) :
    (putUsersIdx mu mt mh aid us).2.1 =
      applyPairs mt (us.flatMap (fun q => q.2.PATs.map (fun t2 => (t2.2.ID, q.2.Id)))) := by
  induction us generalizing mu mt mh with
  | nil => rfl
  | cons q t ih =>
    obtain ⟨k, v⟩ := q
    have hstep : (putUsersIdx mu mt mh aid ((k, v) :: t)).2.1 =
        (putUsersIdx (idxPut mu v.Id aid) (putPATsIdx mt mh v.Id v.PATs).1
          (putPATsIdx mt mh v.Id v.PATs).2 aid t).2.1 := rfl
    rw [hstep, ih, List.flatMap_cons, applyPairs_append, putPATsIdx_fst]

theorem putUsersIdx_hashed (mu mt mh : Idx) (aid : String) (us : List (String × User)) :
    (putUsersIdx mu mt mh aid us).2.2 =
      applyPairs mh (us.flatMap
        (fun q => q.2.PATs.map (fun t2 => (t2.2.HashedToken, t2.2.ID)))) := by
  induction us generalizing mu mt mh with
  | nil => rfl
  | cons q t ih =>
    obtain ⟨k, v⟩ := q
    have hstep : (putUsersIdx mu mt mh aid ((k, v) :: t)).2.2 =
        (putUsersIdx (idxPut mu v.Id aid) (putPATsIdx mt mh v.Id v.PATs).1
          (putPATsIdx mt mh v.Id v.PATs).2 aid t).2.2 := rfl
    rw [hstep, ih, List.flatMap_cons, applyPairs_append, putPATsIdx_snd]

theorem putMigsIdx_eq (m : Idx) (aid : String) (migs : List (String × Peer)) :
    putMigsIdx m aid migs = applyPairs m (peerIdPairs aid migs) := by
  induction migs generalizing m with
  | nil => rfl
  | cons q t ih =>
    obtain ⟨k, v⟩ := q
    exact ih (idxPut m v.ID aid)

/-- Map key, public key and DNS label of a peer entry: everything the peer
pass must not change. -/
def passSig (x : String × Peer) : String × String × String :=
  (x.1, x.2.Key, x.2.DNSLabel)

/-- On an already-migrated peer list (no empty IDs, no zero logins) the peer
pass is the identity and generates nothing. -/
theorem migratePass1_id (p : MigParams) :
    ∀ (ps : List (String × Peer)) (c : Nat),
    (∀ x ∈ ps, x.2.ID ≠ "" ∧ x.2.LastLogin ≠ 0) →
    migratePass1 p ps c = (ps, [], c) := by
  intro ps
  induction ps with
  | nil => intro c _; rfl
  | cons q t ih =>
    intro c h
    obtain ⟨k, pr⟩ := q
    obtain ⟨hid, hll⟩ := h (k, pr) (List.mem_cons_self _ _)
    have ht := ih c (fun x hx => h x (List.mem_cons_of_mem _ hx))
    simp [migratePass1, hll, hid, ht]

/-- Characterization of the peer pass: map keys, public keys and DNS labels
are untouched; afterwards no ID is empty and no last login is zero; the
migrationPeers list is a subcollection of the output whose map keys form a
sublist of the input keys and whose IDs come from fresh, pairwise-distinct
generator indices; every output ID is an input ID or a migrated one, and
every non-empty input ID survives. -/
theorem migratePass1_spec (p : MigParams) (hnow : 0 < p.now)
    (hgen : ∀ i, p.gen i ≠ "") :
    ∀ (ps : List (String × Peer)) (c : Nat),
    ((migratePass1 p ps c).1.map passSig = ps.map passSig) ∧
    (∀ x ∈ (migratePass1 p ps c).1, x.2.ID ≠ "" ∧ x.2.LastLogin ≠ 0) ∧
    (∀ x ∈ (migratePass1 p ps c).2.1, x ∈ (migratePass1 p ps c).1) ∧
    (((migratePass1 p ps c).2.1.map Prod.fst).Sublist (ps.map Prod.fst)) ∧
    (∀ x ∈ (migratePass1 p ps c).2.1,
      ∃ i, c ≤ i ∧ i < (migratePass1 p ps c).2.2 ∧ x.2.ID = p.gen i) ∧
    (c ≤ (migratePass1 p ps c).2.2) ∧
    (∀ x ∈ (migratePass1 p ps c).1,
      x.2.ID ∈ ps.map (fun y => y.2.ID) ∨ x ∈ (migratePass1 p ps c).2.1) ∧
    (∀ y ∈ ps, y.2.ID ≠ "" →
      y.2.ID ∈ (migratePass1 p ps c).1.map (fun x => x.2.ID)) ∧
    (Function.Injective p.gen →
      (((migratePass1 p ps c).2.1).map (fun x => x.2.ID)).Nodup) := by
  intro ps
  induction ps with
  | nil =>
    intro c
    refine ⟨rfl, ?_, ?_, ?_, ?_, Nat.le_refl _, ?_, ?_, ?_⟩ <;>
      first
      | exact fun x hx => absurd hx (List.not_mem_nil x)
      | exact fun x hx h2 => absurd hx (List.not_mem_nil x)
      | exact List.Sublist.refl _
      | exact fun _ => List.nodup_nil
  | cons q t ih =>
    intro c
    obtain ⟨k, pr⟩ := q
    by_cases hid : pr.ID = ""
    · -- legacy peer: stamp, generate an ID at counter c, recurse at c + 1
      obtain ⟨i1, i2, i3, i4, i5, i6, i7, i8, i9⟩ := ih (c + 1)
      have hstep : migratePass1 p ((k, pr) :: t) c =
          ((k, { (if pr.LastLogin = 0 then { pr with LastLogin := p.now } else pr) with
                 ID := p.gen c }) :: (migratePass1 p t (c + 1)).1,
           (k, { (if pr.LastLogin = 0 then { pr with LastLogin := p.now } else pr) with
                 ID := p.gen c }) :: (migratePass1 p t (c + 1)).2.1,
           (migratePass1 p t (c + 1)).2.2) := by
        by_cases h0 : pr.LastLogin = 0 <;> simp [migratePass1, h0, hid]
      rw [hstep]
      refine ⟨?_, ?_, ?_, ?_, ?_, ?_, ?_, ?_, ?_⟩
      · rw [List.map_cons, List.map_cons, i1]
        by_cases h0 : pr.LastLogin = 0 <;> simp [passSig, h0]
      · intro x hx
        rcases List.mem_cons.mp hx with h1 | h1
        · subst h1
          refine ⟨hgen c, ?_⟩
          by_cases h0 : pr.LastLogin = 0 <;> simp [h0] <;> omega
        · exact i2 x h1
      · intro x hx
        rcases List.mem_cons.mp hx with h1 | h1
        · exact h1 ▸ List.mem_cons_self _ _
        · exact List.mem_cons_of_mem _ (i3 x h1)
      · exact List.Sublist.cons₂ _ i4
      · intro x hx
        rcases List.mem_cons.mp hx with h1 | h1
        · subst h1
          exact ⟨c, Nat.le_refl c, Nat.lt_of_lt_of_le (Nat.lt_succ_self c) i6, rfl⟩
        · obtain ⟨i, hi1, hi2, hi3⟩ := i5 x h1
          exact ⟨i, Nat.le_of_succ_le hi1, hi2, hi3⟩
      · exact Nat.le_of_succ_le i6
      · intro x hx
        rcases List.mem_cons.mp hx with h1 | h1
        · exact Or.inr (h1 ▸ List.mem_cons_self _ _)
        · rcases i7 x h1 with h2 | h2
          · exact Or.inl (by
              rw [List.map_cons]
              exact List.mem_cons_of_mem _ h2)
          · exact Or.inr (List.mem_cons_of_mem _ h2)
      · intro y hy hyid
        rcases List.mem_cons.mp hy with h1 | h1
        · exact absurd (by rw [h1]; exact hid) hyid
        · rw [List.map_cons]
          exact List.mem_cons_of_mem _ (i8 y h1 hyid)
      · intro hinj
        rw [List.map_cons, List.nodup_cons]
        refine ⟨?_, i9 hinj⟩
        intro hc
        obtain ⟨x, hx, hxe⟩ := List.mem_map.mp hc
        obtain ⟨i, hi1, _, hi3⟩ := i5 x hx
        have hgc : x.2.ID = p.gen c := by
          rw [hxe]
        have hci : c = i := hinj (hgc.symm.trans hi3)
        omega
    · -- already-keyed peer: only the login stamp applies
      obtain ⟨i1, i2, i3, i4, i5, i6, i7, i8, i9⟩ := ih c
      have hstep : migratePass1 p ((k, pr) :: t) c =
          ((k, if pr.LastLogin = 0 then { pr with LastLogin := p.now } else pr) ::
            (migratePass1 p t c).1,
           (migratePass1 p t c).2.1,
           (migratePass1 p t c).2.2) := by
        by_cases h0 : pr.LastLogin = 0 <;> simp [migratePass1, h0, hid]
      rw [hstep]
      refine ⟨?_, ?_, ?_, ?_, i5, i6, ?_, ?_, i9⟩
      · rw [List.map_cons, List.map_cons, i1]
        by_cases h0 : pr.LastLogin = 0 <;> simp [passSig, h0]
      · intro x hx
        rcases List.mem_cons.mp hx with h1 | h1
        · subst h1
          constructor
          · by_cases h0 : pr.LastLogin = 0 <;> simp [h0, hid]
          · by_cases h0 : pr.LastLogin = 0 <;> simp [h0] <;> omega
        · exact i2 x h1
      · intro x hx
        exact List.mem_cons_of_mem _ (i3 x hx)
      · exact List.Sublist.cons _ i4
      · intro x hx
        rcases List.mem_cons.mp hx with h1 | h1
        · refine Or.inl ?_
          rw [List.map_cons]
          subst h1
          have : ((k, if pr.LastLogin = 0 then { pr with LastLogin := p.now }
              else pr) : String × Peer).2.ID = pr.ID := by
            by_cases h0 : pr.LastLogin = 0 <;> simp [h0]
          rw [this]
          exact List.mem_cons_self _ _
        · rcases i7 x h1 with h2 | h2
          · exact Or.inl (by
              rw [List.map_cons]
              exact List.mem_cons_of_mem _ h2)
          · exact Or.inr h2
      · intro y hy hyid
        rcases List.mem_cons.mp hy with h1 | h1
        · subst h1
          rw [List.map_cons]
          have hh : ((k, if pr.LastLogin = 0 then { pr with LastLogin := p.now }
              else pr) : String × Peer).2.ID = pr.ID := by
            by_cases h0 : pr.LastLogin = 0 <;> simp [h0]
          rw [hh]
          exact List.mem_cons_self _ _
        · rw [List.map_cons]
          exact List.mem_cons_of_mem _ (i8 y h1 hyid)

theorem putKey_not_mem {α : Type} (l : List (String × α)) (k : String) (v : α)
    (h : k ∉ l.map Prod.fst) : putKey l k v = l ++ [(k, v)] := by
  induction l with
  | nil => rfl
  | cons q t ih =>
    obtain ⟨k1, v1⟩ := q
    rw [List.map_cons] at h
    have hk : ¬ k1 = k := by
      intro he
      subst he
      exact h (List.mem_cons_self _ _)
    simp [putKey, hk]
    exact ih (fun hm => h (List.mem_cons_of_mem _ hm))

theorem eraseKey_sublist {α : Type} (l : List (String × α)) (k : String) :
    ((eraseKey l k).map Prod.fst).Sublist (l.map Prod.fst) :=
  List.Sublist.map Prod.fst (List.filter_sublist l)

theorem mem_eraseKey {α : Type} (l : List (String × α)) (k : String)
    (q : String × α) : q ∈ eraseKey l k ↔ q ∈ l ∧ q.1 ≠ k := by
  unfold eraseKey
  rw [List.mem_filter]
  simp

theorem eraseKey_keys_not {α : Type} (l : List (String × α)) (k : String) :
    k ∉ (eraseKey l k).map Prod.fst := by
  intro hc
  obtain ⟨q, hq, he⟩ := List.mem_map.mp hc
  exact ((mem_eraseKey l k q).mp hq).2 he

theorem erase_perm_of_mem {α : Type} (l : List (String × α)) (k : String) (v : α)
    (hmem : (k, v) ∈ l) (hnd : (l.map Prod.fst).Nodup) :
    List.Perm l ((k, v) :: eraseKey l k) := by
  induction l with
  | nil => cases hmem
  | cons q t ih =>
    obtain ⟨k1, v1⟩ := q
    rw [List.map_cons, List.nodup_cons] at hnd
    by_cases hk : k1 = k
    · subst hk
      have ht : eraseKey ((k1, v1) :: t) k1 = t := by
        have h1 : eraseKey ((k1, v1) :: t) k1 = eraseKey t k1 := by
          simp [eraseKey, List.filter_cons]
        rw [h1]
        apply filter_eq_self_of
        intro x hx
        have : x.1 ∈ t.map Prod.fst := List.mem_map_of_mem Prod.fst hx
        simp only [decide_eq_true_eq]
        intro he
        rw [he] at this
        exact hnd.1 this
      have hv : v1 = v := by
        rcases List.mem_cons.mp hmem with h1 | h1
        · exact (Prod.mk.injEq _ _ _ _ ▸ h1 : _ ∧ _).2.symm
        · exact absurd (List.mem_map_of_mem Prod.fst h1) hnd.1
      rw [ht, hv]
    · have hmem2 : (k, v) ∈ t := by
        rcases List.mem_cons.mp hmem with h1 | h1
        · exact absurd ((Prod.mk.injEq _ _ _ _ ▸ h1 : _ ∧ _).1.symm) hk
        · exact h1
      have hstep : eraseKey ((k1, v1) :: t) k = (k1, v1) :: eraseKey t k := by
        simp [eraseKey, List.filter_cons, hk]
      rw [hstep]
      exact List.Perm.trans (List.Perm.cons _ (ih hmem2 hnd.2)) (List.Perm.swap _ _ _)

theorem nodup_append_singleton {α : Type} (l : List α) (a : α)
    (hnd : l.Nodup) (ha : a ∉ l) : (l ++ [a]).Nodup := by
  rw [List.nodup_append]
  exact ⟨hnd, List.nodup_singleton a, by simpa using ha⟩

/-- The re-keying loop permutes the peer values: every migrated peer is
removed at its old key and re-inserted at its fresh ID. -/
theorem rekeyPeers_perm :
    ∀ (migs ps : List (String × Peer)),
    (∀ q ∈ migs, q ∈ ps) →
    ((ps.map Prod.fst).Nodup) →
    ((migs.map Prod.fst).Nodup) →
    (∀ q ∈ migs, q.2.ID ∉ ps.map Prod.fst) →
    ((migs.map (fun q => q.2.ID)).Nodup) →
    List.Perm ((rekeyPeers migs ps).map Prod.snd) (ps.map Prod.snd) := by
  intro migs
  induction migs with
  | nil => exact fun ps _ _ _ _ _ => List.Perm.refl _
  | cons q t ih =>
    intro ps hsub hnd hmk hfresh hids
    obtain ⟨k, pr⟩ := q
    rw [List.map_cons, List.nodup_cons] at hmk
    rw [List.map_cons, List.nodup_cons] at hids
    have hmem : (k, pr) ∈ ps := hsub (k, pr) (List.mem_cons_self _ _)
    have hf1 : pr.ID ∉ (eraseKey ps k).map Prod.fst := by
      intro hc
      exact hfresh (k, pr) (List.mem_cons_self _ _)
        ((eraseKey_sublist ps k).mem hc)
    have hput : putKey (eraseKey ps k) pr.ID pr =
        eraseKey ps k ++ [(pr.ID, pr)] := putKey_not_mem _ _ _ hf1
    have hstep : rekeyPeers ((k, pr) :: t) ps =
        rekeyPeers t (putKey (eraseKey ps k) pr.ID pr) := rfl
    rw [hstep, hput]
    set ps2 : List (String × Peer) := eraseKey ps k ++ [(pr.ID, pr)] with hps2
    have hperm1 : List.Perm ps ((k, pr) :: eraseKey ps k) :=
      erase_perm_of_mem ps k pr hmem hnd
    have hkeys2 : ps2.map Prod.fst = (eraseKey ps k).map Prod.fst ++ [pr.ID] := by
      rw [hps2, List.map_append]
      rfl
    have hnd2 : (ps2.map Prod.fst).Nodup := by
      rw [hkeys2]
      exact nodup_append_singleton _ _ ((eraseKey_sublist ps k).nodup hnd) hf1
    have hsub2 : ∀ q2 ∈ t, q2 ∈ ps2 := by
      intro q2 hq2
      have hq2ps : q2 ∈ ps := hsub q2 (List.mem_cons_of_mem _ hq2)
      have hq2k : q2.1 ≠ k := by
        intro he
        have h3 : q2.1 ∈ t.map Prod.fst := List.mem_map_of_mem Prod.fst hq2
        rw [he] at h3
        exact hmk.1 h3
      rw [hps2]
      exact List.mem_append_left _ ((mem_eraseKey ps k q2).mpr ⟨hq2ps, hq2k⟩)
    have hfresh2 : ∀ q2 ∈ t, q2.2.ID ∉ ps2.map Prod.fst := by
      intro q2 hq2 hc
      rw [hkeys2] at hc
      rcases List.mem_append.mp hc with h1 | h1
      · exact hfresh q2 (List.mem_cons_of_mem _ hq2) ((eraseKey_sublist ps k).mem h1)
      · rw [List.mem_singleton] at h1
        apply hids.1
        rw [← h1]
        exact List.mem_map_of_mem (fun q3 => q3.2.ID) hq2
    have hrec := ih ps2 hsub2 hnd2 hmk.2 hfresh2 hids.2
    refine List.Perm.trans hrec ?_
    have hv2 : ps2.map Prod.snd = (eraseKey ps k).map Prod.snd ++ [pr] := by
      rw [hps2, List.map_append]
      rfl
    rw [hv2]
    refine List.Perm.trans (List.perm_append_singleton pr _) ?_
    exact List.Perm.trans (List.Perm.refl _) (List.Perm.map Prod.snd hperm1).symm

theorem upgradeAndFix_idem (po : Policy) :
    upgradeAndFix (upgradeAndFix po) = upgradeAndFix po := by
  unfold upgradeAndFix
  simp only [List.map_map]
  congr 1
  apply List.map_congr_left
  intro r _
  by_cases hp : r.Protocol = "" <;> simp [Function.comp, hp]

theorem addPeerLabels_nonempty (ps : List (String × Peer)) :
    ∀ q ∈ addPeerLabels ps, q.2.DNSLabel ≠ "" := by
  intro q hq
  obtain ⟨q0, hq0, he⟩ := List.mem_map.mp hq
  rw [← he]
  by_cases hl : q0.2.DNSLabel = "" <;> simp [hl]

theorem addPeerLabels_id_of (ps : List (String × Peer))
    (h : ∀ q ∈ ps, q.2.DNSLabel ≠ "") : addPeerLabels ps = ps := by
  apply map_id_of
  intro q hq
  simp [h q hq]

/-- The labels of a peer list. -/
def labelsOf (ps : List (String × Peer)) : List String :=
  ps.map (fun q => q.2.DNSLabel)

theorem getPeerDNSLabels_eq (ps : List (String × Peer)) :
    getPeerDNSLabels ps = ((labelsOf ps).filter (fun l => decide (l ≠ ""))).dedup := rfl

/-- The state in which the label backfill is a no-op: the guard is already
false, or every peer carries a label. -/
def labelsGood (ps : List (String × Peer)) : Prop :=
  (getPeerDNSLabels ps).length = ps.length ∨ ∀ q ∈ ps, q.2.DNSLabel ≠ ""

theorem labelStep_eq_self (ps : List (String × Peer)) (h : labelsGood ps) :
    labelStep ps = ps := by
  unfold labelStep
  rcases h with h1 | h1
  · rw [if_neg]
    simp [h1]
  · split
    · exact addPeerLabels_id_of ps h1
    · rfl

theorem labelsGood_labelStep (ps : List (String × Peer)) :
    labelsGood (labelStep ps) := by
  unfold labelStep
  split
  · exact Or.inr (addPeerLabels_nonempty ps)
  · rename_i h
    rw [Decidable.not_not] at h
    exact Or.inl h

theorem labelsGood_transfer (ps ps2 : List (String × Peer))
    (hperm : List.Perm (labelsOf ps2) (labelsOf ps))
    (h : labelsGood ps) : labelsGood ps2 := by
  have hlen : ps2.length = ps.length := by
    have h1 := hperm.length_eq
    simpa [labelsOf] using h1
  rcases h with h1 | h1
  · refine Or.inl ?_
    rw [getPeerDNSLabels_eq, hlen]
    rw [getPeerDNSLabels_eq] at h1
    rw [((hperm.filter _).dedup).length_eq]
    exact h1
  · refine Or.inr ?_
    intro q hq
    have h2 : q.2.DNSLabel ∈ labelsOf ps2 :=
      List.mem_map_of_mem (fun q2 => q2.2.DNSLabel) hq
    have h3 : q.2.DNSLabel ∈ labelsOf ps := hperm.mem_iff.mp h2
    obtain ⟨q0, hq0, he⟩ := List.mem_map.mp h3
    rw [← he]
    exact h1 q0 hq0

theorem preMigrate_SetupKeys (a : Account) :
    (preMigrate a).SetupKeys = a.SetupKeys := by
  by_cases h : a.Settings.isNone <;> simp [preMigrate, h]

theorem preMigrate_Users (a : Account) :
    (preMigrate a).Users = a.Users.map
      (fun p => if p.2.Issued = "" then (p.1, { p.2 with Issued := UserIssuedAPI })
        else p) := by
  by_cases h : a.Settings.isNone <;> simp [preMigrate, h]

theorem preMigrate_Policies (a : Account) :
    (preMigrate a).Policies = a.Policies.map upgradeAndFix := by
  by_cases h : a.Settings.isNone <;> simp [preMigrate, h]

theorem preMigrate_Id (a : Account) : (preMigrate a).Id = a.Id := by
  by_cases h : a.Settings.isNone <;> simp [preMigrate, h]

theorem preMigrate_Domain (a : Account) : (preMigrate a).Domain = a.Domain := by
  by_cases h : a.Settings.isNone <;> simp [preMigrate, h]

theorem preMigrate_DomainCategory (a : Account) :
    (preMigrate a).DomainCategory = a.DomainCategory := by
  by_cases h : a.Settings.isNone <;> simp [preMigrate, h]

theorem preMigrate_IsPrimary (a : Account) :
    (preMigrate a).IsDomainPrimaryAccount = a.IsDomainPrimaryAccount := by
  by_cases h : a.Settings.isNone <;> simp [preMigrate, h]

theorem preMigrate_NameServerGroups (a : Account) :
    (preMigrate a).NameServerGroups = a.NameServerGroups := by
  by_cases h : a.Settings.isNone <;> simp [preMigrate, h]

theorem preMigrate_Settings_isSome (a : Account) :
    (preMigrate a).Settings.isSome = true := by
  by_cases h : a.Settings.isNone <;> simp [preMigrate, h]
  cases hs : a.Settings with
  | none => rw [hs] at h; simp at h
  | some v => simp

/-- Componentwise equality of accounts. -/
theorem accountExt (x y : Account)
    (h1 : x.Id = y.Id) (h2 : x.Domain = y.Domain) (h3 : x.DomainCategory = y.DomainCategory)
    (h4 : x.IsDomainPrimaryAccount = y.IsDomainPrimaryAccount) (h5 : x.Settings = y.Settings)
    (h6 : x.SetupKeys = y.SetupKeys) (h7 : x.Peers = y.Peers) (h8 : x.Users = y.Users)
    (h9 : x.Groups = y.Groups) (h10 : x.Routes = y.Routes) (h11 : x.Policies = y.Policies)
    (h12 : x.NameServerGroups = y.NameServerGroups) : x = y := by
  cases x
  cases y
  simp_all

theorem upgradeAndFix_eq_self (po : Policy) (h : ∀ r ∈ po.Rules, r.Protocol ≠ "") :
    upgradeAndFix po = po := by
  have h2 : po.Rules.map
      (fun r => if r.Protocol = "" then { r with Protocol := "all" } else r) = po.Rules :=
    map_id_of _ _ (fun r hr => by simp [h r hr])
  unfold upgradeAndFix
  rw [h2]

theorem upgradeAndFix_protocols (po : Policy) :
    ∀ r ∈ (upgradeAndFix po).Rules, r.Protocol ≠ "" := by
  intro r hr
  obtain ⟨r0, _, he⟩ := List.mem_map.mp hr
  rw [← he]
  by_cases hp : r0.Protocol = "" <;> simp [hp]

theorem preMigrate_Settings_of_isSome (a : Account) (hs : a.Settings.isSome = true) :
    (preMigrate a).Settings = a.Settings := by
  have h1 : a.Settings.isNone = false := by
    cases hv : a.Settings with
    | none => rw [hv] at hs; simp at hs
    | some v => rfl
  simp [preMigrate, h1]

theorem preMigrate_users_issued (a : Account) :
    ∀ q ∈ (preMigrate a).Users, q.2.Issued ≠ "" := by
  intro q hq
  rw [preMigrate_Users] at hq
  obtain ⟨q0, _, he⟩ := List.mem_map.mp hq
  rw [← he]
  by_cases hi : q0.2.Issued = "" <;> simp [hi, UserIssuedAPI]

theorem preMigrate_groups_issued (a : Account) :
    ∀ q ∈ (preMigrate a).Groups, q.2.Issued ≠ "" := by
  intro q hq
  rw [preMigrate_Groups] at hq
  obtain ⟨q0, _, he⟩ := List.mem_map.mp hq
  rw [← he]
  by_cases hi : q0.2.Issued = "" <;> simp [hi, GroupIssuedAPI]

theorem preMigrate_policies_protocols (a : Account) :
    ∀ po ∈ (preMigrate a).Policies, ∀ r ∈ po.Rules, r.Protocol ≠ "" := by
  intro po hpo
  rw [preMigrate_Policies] at hpo
  obtain ⟨p0, _, he⟩ := List.mem_map.mp hpo
  rw [← he]
  exact upgradeAndFix_protocols p0

/-- An account on which the whole pre-migration rewrite is the identity and
the All-group branch changes nothing: the fixpoints of the migration pass. -/
structure MigratedAcc (a : Account) : Prop where
  settings : a.Settings.isSome = true
  users : ∀ q ∈ a.Users, q.2.Issued ≠ ""
  groups : ∀ q ∈ a.Groups, q.2.Issued ≠ ""
  policies : ∀ po ∈ a.Policies, ∀ r ∈ po.Rules, r.Protocol ≠ ""
  labels : labelsGood a.Peers
  branch : findGroupAll a.Groups = none ∨
    ((∀ q ∈ a.Routes, q.2.Groups ≠ []) ∧
     (∀ q ∈ a.Peers, q.2.ID ≠ "" ∧ q.2.LastLogin ≠ 0))

theorem preMigrate_eq_self (a : Account)
    (hs : a.Settings.isSome = true)
    (hu : ∀ q ∈ a.Users, q.2.Issued ≠ "")
    (hg : ∀ q ∈ a.Groups, q.2.Issued ≠ "")
    (hp : ∀ po ∈ a.Policies, ∀ r ∈ po.Rules, r.Protocol ≠ "")
    (hl : labelsGood a.Peers) : preMigrate a = a := by
  apply accountExt
  · exact preMigrate_Id a
  · exact preMigrate_Domain a
  · exact preMigrate_DomainCategory a
  · exact preMigrate_IsPrimary a
  · exact preMigrate_Settings_of_isSome a hs
  · exact preMigrate_SetupKeys a
  · rw [preMigrate_Peers]
    exact labelStep_eq_self a.Peers hl
  · rw [preMigrate_Users]
    exact map_id_of _ _ (fun q hq => by simp [hu q hq])
  · rw [preMigrate_Groups]
    exact map_id_of _ _ (fun q hq => by simp [hg q hq])
  · exact preMigrate_Routes a
  · rw [preMigrate_Policies]
    exact map_id_of _ _ (fun po hpo => upgradeAndFix_eq_self po (hp po hpo))
  · exact preMigrate_NameServerGroups a

/-- The route-group backfill of lines 185-189: empty group lists become the
All group singleton. -/
def backfillRoutes (gid : String) (rs : List (String × Route)) : List (String × Route) :=
  rs.map (fun p2 => if p2.2.Groups = [] then (p2.1, { p2.2 with Groups := [gid] }) else p2)

theorem backfillRoutes_groups (gid : String) (rs : List (String × Route)) :
    ∀ q ∈ backfillRoutes gid rs, q.2.Groups ≠ [] := by
  intro q hq
  unfold backfillRoutes at hq
  obtain ⟨q0, _, he⟩ := List.mem_map.mp hq
  rw [← he]
  by_cases hg : q0.2.Groups = [] <;> simp [hg]

theorem rewriteGroups_issued (migs : List (String × Peer)) (gs : List (String × Group))
    (h : ∀ q ∈ gs, q.2.Issued ≠ "") : ∀ q ∈ rewriteGroups migs gs, q.2.Issued ≠ "" := by
  intro q hq
  unfold rewriteGroups at hq
  obtain ⟨q0, hq0, he⟩ := List.mem_map.mp hq
  rw [← he]
  exact h q0 hq0

theorem rewriteRoutes_groups (migs : List (String × Peer)) (rs : List (String × Route))
    (h : ∀ q ∈ rs, q.2.Groups ≠ []) : ∀ q ∈ rewriteRoutes migs rs, q.2.Groups ≠ [] := by
  intro q hq
  unfold rewriteRoutes at hq
  obtain ⟨q0, hq0, he⟩ := List.mem_map.mp hq
  rw [← he]
  cases hf : findKey migs q0.2.Peer with
  | none => simpa [hf] using h q0 hq0
  | some pr => simpa [hf] using h q0 hq0

theorem map_fst_of_peerSig (l1 l2 : List (String × Peer))
    (h : l1.map peerSig = l2.map peerSig) : l1.map Prod.fst = l2.map Prod.fst := by
  have h2 := congrArg (List.map (fun t : String × String × String × Nat => t.1)) h
  rw [List.map_map, List.map_map] at h2
  exact h2

theorem map_ids_of_peerSig (l1 l2 : List (String × Peer))
    (h : l1.map peerSig = l2.map peerSig) :
    l1.map (fun q => q.2.ID) = l2.map (fun q => q.2.ID) := by
  have h2 := congrArg (List.map (fun t : String × String × String × Nat => t.2.1)) h
  rw [List.map_map, List.map_map] at h2
  exact h2

theorem map_key_of_peerSig (l1 l2 : List (String × Peer))
    (h : l1.map peerSig = l2.map peerSig) :
    l1.map (fun q => q.2.Key) = l2.map (fun q => q.2.Key) := by
  have h2 := congrArg (List.map (fun t : String × String × String × Nat => t.2.2.1)) h
  rw [List.map_map, List.map_map] at h2
  exact h2

theorem map_fst_of_passSig (l1 l2 : List (String × Peer))
    (h : l1.map passSig = l2.map passSig) : l1.map Prod.fst = l2.map Prod.fst := by
  have h2 := congrArg (List.map (fun t : String × String × String => t.1)) h
  rw [List.map_map, List.map_map] at h2
  exact h2

theorem map_key_of_passSig (l1 l2 : List (String × Peer))
    (h : l1.map passSig = l2.map passSig) :
    l1.map (fun q => q.2.Key) = l2.map (fun q => q.2.Key) := by
  have h2 := congrArg (List.map (fun t : String × String × String => t.2.1)) h
  rw [List.map_map, List.map_map] at h2
  exact h2

theorem labelsOf_of_passSig (l1 l2 : List (String × Peer))
    (h : l1.map passSig = l2.map passSig) : labelsOf l1 = labelsOf l2 := by
  have h2 := congrArg (List.map (fun t : String × String × String => t.2.2)) h
  rw [List.map_map, List.map_map] at h2
  exact h2

/-- A permutation of the values of two association lists permutes every
value projection. -/
theorem perm_proj_snd {α β : Type} (f : α → β) (l1 l2 : List (String × α))
    (h : List.Perm (l1.map Prod.snd) (l2.map Prod.snd)) :
    List.Perm (l1.map (fun q => f q.2)) (l2.map (fun q => f q.2)) := by
  have h2 := h.map f
  rw [List.map_map, List.map_map] at h2
  exact h2

theorem snd_prop_of_perm {α : Type} (P : α → Prop) (l1 l2 : List (String × α))
    (h : List.Perm (l1.map Prod.snd) (l2.map Prod.snd))
    (hp : ∀ x ∈ l2, P x.2) : ∀ q ∈ l1, P q.2 := by
  intro q hq
  have h1 : q.2 ∈ l1.map Prod.snd := List.mem_map_of_mem Prod.snd hq
  have h2 : q.2 ∈ l2.map Prod.snd := h.mem_iff.mp h1
  obtain ⟨x, hx, he⟩ := List.mem_map.mp h2
  exact he ▸ hp x hx

theorem restoreAccount_none (p : MigParams) (st : RestoreState) (aid : String)
    (a : Account) (hall : findGroupAll (preMigrate a).Groups = none) :
    restoreAccount p st aid a = (idxStep st aid a, preMigrate a) := by
  simp only [restoreAccount]
  rw [hall]

theorem restoreAccount_some_nil (p : MigParams) (st : RestoreState) (aid : String)
    (a : Account) (g : Group) (hall : findGroupAll (preMigrate a).Groups = some g)
    (hm : (migratePass1 p (preMigrate a).Peers st.counter).2.1 = []) :
    restoreAccount p st aid a =
      ({ idxStep st aid a with
           counter := (migratePass1 p (preMigrate a).Peers st.counter).2.2 },
       { preMigrate a with
           Routes := backfillRoutes g.ID (preMigrate a).Routes
           Peers := (migratePass1 p (preMigrate a).Peers st.counter).1 }) := by
  simp only [restoreAccount, idxStep_counter]
  rw [hall]
  simp [backfillRoutes, hm]

theorem restoreAccount_some_cons (p : MigParams) (st : RestoreState) (aid : String)
    (a : Account) (g : Group) (hall : findGroupAll (preMigrate a).Groups = some g)
    (hm : ¬ (migratePass1 p (preMigrate a).Peers st.counter).2.1 = []) :
    restoreAccount p st aid a =
      ({ idxStep st aid a with
           peerIdIdx := putMigsIdx (idxStep st aid a).peerIdIdx aid
             (migratePass1 p (preMigrate a).Peers st.counter).2.1
           counter := (migratePass1 p (preMigrate a).Peers st.counter).2.2 },
       { preMigrate a with
           Routes := rewriteRoutes (migratePass1 p (preMigrate a).Peers st.counter).2.1
             (backfillRoutes g.ID (preMigrate a).Routes)
           Peers := rekeyPeers (migratePass1 p (preMigrate a).Peers st.counter).2.1
             (migratePass1 p (preMigrate a).Peers st.counter).1
           Groups := rewriteGroups (migratePass1 p (preMigrate a).Peers st.counter).2.1
             (preMigrate a).Groups }) := by
  simp only [restoreAccount, idxStep_counter]
  rw [hall]
  simp [backfillRoutes, hm]

theorem idxStep_setup (st : RestoreState) (aid : String) (a : Account) :
    (idxStep st aid a).setupIdx = applyPairs st.setupIdx (setupPairs aid a) := by
  show putSetupKeysIdx st.setupIdx aid a.SetupKeys = _
  rw [putSetupKeysIdx_eq]
  rfl

theorem idxStep_peerKey (st : RestoreState) (aid : String) (a : Account) :
    (idxStep st aid a).peerKeyIdx = applyPairs st.peerKeyIdx (peerKeyPairs aid a.Peers) := by
  show (putPeersIdx st.peerKeyIdx st.peerIdIdx aid a.Peers).1 = _
  rw [putPeersIdx_fst]

theorem idxStep_peerId (st : RestoreState) (aid : String) (a : Account) :
    (idxStep st aid a).peerIdIdx = applyPairs st.peerIdIdx (peerIdPairs aid a.Peers) := by
  show (putPeersIdx st.peerKeyIdx st.peerIdIdx aid a.Peers).2 = _
  rw [putPeersIdx_snd]

theorem idxStep_user (st : RestoreState) (aid : String) (a : Account) :
    (idxStep st aid a).userIdx = applyPairs st.userIdx (userPairs aid a) := by
  show (putUsersIdx st.userIdx st.tokenIdx st.hashedIdx aid a.Users).1 = _
  rw [putUsersIdx_fst]
  rfl

theorem idxStep_token (st : RestoreState) (aid : String) (a : Account) :
    (idxStep st aid a).tokenIdx = applyPairs st.tokenIdx (tokenPairs a) := by
  show (putUsersIdx st.userIdx st.tokenIdx st.hashedIdx aid a.Users).2.1 = _
  rw [putUsersIdx_token]
  rfl

theorem idxStep_hashed (st : RestoreState) (aid : String) (a : Account) :
    (idxStep st aid a).hashedIdx = applyPairs st.hashedIdx (hashedPairs a) := by
  show (putUsersIdx st.userIdx st.tokenIdx st.hashedIdx aid a.Users).2.2 = _
  rw [putUsersIdx_hashed]
  rfl

theorem idxStep_domain (st : RestoreState) (aid : String) (a : Account) :
    (idxStep st aid a).domainIdx =
      if a.Domain ≠ "" ∧ a.DomainCategory = PrivateCategory ∧ a.IsDomainPrimaryAccount then
        idxPut st.domainIdx a.Domain aid
      else st.domainIdx := rfl

/-- Only the peer-ID index and the counter are touched after the initial
index rebuild: the other six state components come straight from idxStep. -/
theorem restoreAccount_state_flat (p : MigParams) (st : RestoreState) (aid : String)
    (a : Account) :
    (restoreAccount p st aid a).1.setupIdx = (idxStep st aid a).setupIdx ∧
    (restoreAccount p st aid a).1.peerKeyIdx = (idxStep st aid a).peerKeyIdx ∧
    (restoreAccount p st aid a).1.userIdx = (idxStep st aid a).userIdx ∧
    (restoreAccount p st aid a).1.domainIdx = (idxStep st aid a).domainIdx ∧
    (restoreAccount p st aid a).1.hashedIdx = (idxStep st aid a).hashedIdx ∧
    (restoreAccount p st aid a).1.tokenIdx = (idxStep st aid a).tokenIdx := by
  cases hall : findGroupAll (preMigrate a).Groups with
  | none =>
    rw [restoreAccount_none p st aid a hall]
    exact ⟨rfl, rfl, rfl, rfl, rfl, rfl⟩
  | some g =>
    by_cases hm : (migratePass1 p (preMigrate a).Peers st.counter).2.1 = []
    · rw [restoreAccount_some_nil p st aid a g hall hm]
      exact ⟨rfl, rfl, rfl, rfl, rfl, rfl⟩
    · rw [restoreAccount_some_cons p st aid a g hall hm]
      exact ⟨rfl, rfl, rfl, rfl, rfl, rfl⟩

/-- The migration never touches the setup keys, the domain triple, or
anything of the users beyond the issuer backfill. -/
theorem restoreAccount_out_flat (p : MigParams) (st : RestoreState) (aid : String)
    (a : Account) :
    (restoreAccount p st aid a).2.SetupKeys = a.SetupKeys ∧
    (restoreAccount p st aid a).2.Users = (preMigrate a).Users ∧
    (restoreAccount p st aid a).2.Domain = a.Domain ∧
    (restoreAccount p st aid a).2.DomainCategory = a.DomainCategory ∧
    (restoreAccount p st aid a).2.IsDomainPrimaryAccount = a.IsDomainPrimaryAccount := by
  cases hall : findGroupAll (preMigrate a).Groups with
  | none =>
    rw [restoreAccount_none p st aid a hall]
    exact ⟨preMigrate_SetupKeys a, rfl, preMigrate_Domain a, preMigrate_DomainCategory a,
      preMigrate_IsPrimary a⟩
  | some g =>
    by_cases hm : (migratePass1 p (preMigrate a).Peers st.counter).2.1 = []
    · rw [restoreAccount_some_nil p st aid a g hall hm]
      exact ⟨preMigrate_SetupKeys a, rfl, preMigrate_Domain a, preMigrate_DomainCategory a,
        preMigrate_IsPrimary a⟩
    · rw [restoreAccount_some_cons p st aid a g hall hm]
      exact ⟨preMigrate_SetupKeys a, rfl, preMigrate_Domain a, preMigrate_DomainCategory a,
        preMigrate_IsPrimary a⟩

/-- The re-keying loop as run by restoreAccount permutes the peer values. -/
theorem restoreAccount_rekey_perm (p : MigParams) (hnow : 0 < p.now)
    (hgen : ∀ i, p.gen i ≠ "") (hinj : Function.Injective p.gen)
    (a : Account) (c : Nat)
    (hnd : (a.Peers.map Prod.fst).Nodup)
    (hfresh : ∀ i, p.gen i ∉ a.Peers.map Prod.fst) :
    List.Perm
      ((rekeyPeers (migratePass1 p (preMigrate a).Peers c).2.1
         (migratePass1 p (preMigrate a).Peers c).1).map Prod.snd)
      ((migratePass1 p (preMigrate a).Peers c).1.map Prod.snd) := by
  obtain ⟨S1, S2, S3, S4, S5, S6, S7, S8, S9⟩ :=
    migratePass1_spec p hnow hgen (preMigrate a).Peers c
  have hk2 : (preMigrate a).Peers.map Prod.fst = a.Peers.map Prod.fst := by
    rw [preMigrate_Peers]
    exact map_fst_of_peerSig _ _ (labelStep_sig a.Peers)
  have hk1 : (migratePass1 p (preMigrate a).Peers c).1.map Prod.fst =
      a.Peers.map Prod.fst := by
    rw [map_fst_of_passSig _ _ S1, hk2]
  apply rekeyPeers_perm _ _ S3
  · rw [hk1]
    exact hnd
  · rw [hk2] at S4
    exact S4.nodup hnd
  · intro q hq
    obtain ⟨i, _, _, hi3⟩ := S5 q hq
    rw [hk1, hi3]
    exact hfresh i
  · exact S9 hinj

/-- The public keys of the account's peers form the same multiset before and
after the migration. -/
theorem restoreAccount_out_key_perm (p : MigParams) (hnow : 0 < p.now)
    (hgen : ∀ i, p.gen i ≠ "") (hinj : Function.Injective p.gen)
    (st : RestoreState) (aid : String) (a : Account)
    (hnd : (a.Peers.map Prod.fst).Nodup)
    (hfresh : ∀ i, p.gen i ∉ a.Peers.map Prod.fst) :
    List.Perm ((restoreAccount p st aid a).2.Peers.map (fun q => q.2.Key))
      (a.Peers.map (fun q => q.2.Key)) := by
  have hkey3 : (preMigrate a).Peers.map (fun q => q.2.Key) =
      a.Peers.map (fun q => q.2.Key) := by
    rw [preMigrate_Peers]
    exact map_key_of_peerSig _ _ (labelStep_sig a.Peers)
  cases hall : findGroupAll (preMigrate a).Groups with
  | none =>
    have h5 : (restoreAccount p st aid a).2.Peers.map (fun q => q.2.Key) =
        a.Peers.map (fun q => q.2.Key) := by
      rw [restoreAccount_none p st aid a hall]
      exact hkey3
    rw [h5]
  | some g =>
    obtain ⟨S1, S2, S3, S4, S5, S6, S7, S8, S9⟩ :=
      migratePass1_spec p hnow hgen (preMigrate a).Peers st.counter
    have hkey4 : (migratePass1 p (preMigrate a).Peers st.counter).1.map
        (fun q => q.2.Key) = a.Peers.map (fun q => q.2.Key) := by
      rw [map_key_of_passSig _ _ S1, hkey3]
    by_cases hm : (migratePass1 p (preMigrate a).Peers st.counter).2.1 = []
    · have h5 : (restoreAccount p st aid a).2.Peers.map (fun q => q.2.Key) =
          a.Peers.map (fun q => q.2.Key) := by
        rw [restoreAccount_some_nil p st aid a g hall hm]
        exact hkey4
      rw [h5]
    · have hperm := restoreAccount_rekey_perm p hnow hgen hinj a st.counter hnd hfresh
      have h6 := perm_proj_snd Peer.Key _ _ hperm
      have h5 : (restoreAccount p st aid a).2.Peers =
          rekeyPeers (migratePass1 p (preMigrate a).Peers st.counter).2.1
            (migratePass1 p (preMigrate a).Peers st.counter).1 := by
        rw [restoreAccount_some_cons p st aid a g hall hm]
      rw [h5]
      rw [hkey4] at h6
      exact h6

/-- Lemma A2: on an already-migrated account the per-account loop body only
rebuilds the index entries and returns the account unchanged. -/
theorem restoreAccount_migrated (p : MigParams) (st : RestoreState) (aid : String)
    (a : Account) (h : MigratedAcc a) :
    restoreAccount p st aid a = (idxStep st aid a, a) := by
  have hpm : preMigrate a = a :=
    preMigrate_eq_self a h.settings h.users h.groups h.policies h.labels
  rcases h.branch with hb | hb
  · rw [restoreAccount_none p st aid a (by rw [hpm]; exact hb), hpm]
  · cases hall : findGroupAll a.Groups with
    | none => rw [restoreAccount_none p st aid a (by rw [hpm]; exact hall), hpm]
    | some g =>
      have hmig := migratePass1_id p a.Peers st.counter hb.2
      have hm : (migratePass1 p (preMigrate a).Peers st.counter).2.1 = [] := by
        rw [hpm, hmig]
      have hbr : backfillRoutes g.ID a.Routes = a.Routes := by
        unfold backfillRoutes
        exact map_id_of _ _ (fun q hq => by simp [hb.1 q hq])
      rw [restoreAccount_some_nil p st aid a g (by rw [hpm]; exact hall) hm, hpm, hmig, hbr]
      rfl

/-- Lemma A1: the per-account loop body always leaves an already-migrated
account behind. -/
theorem restoreAccount_out_migrated (p : MigParams) (hnow : 0 < p.now)
    (hgen : ∀ i, p.gen i ≠ "") (hinj : Function.Injective p.gen)
    (st : RestoreState) (aid : String) (a : Account)
    (hnd : (a.Peers.map Prod.fst).Nodup)
    (hfresh : ∀ i, p.gen i ∉ a.Peers.map Prod.fst) :
    MigratedAcc (restoreAccount p st aid a).2 := by
  have hP3 : labelsGood (preMigrate a).Peers := by
    rw [preMigrate_Peers]
    exact labelsGood_labelStep a.Peers
  cases hall : findGroupAll (preMigrate a).Groups with
  | none =>
    rw [restoreAccount_none p st aid a hall]
    exact ⟨preMigrate_Settings_isSome a, preMigrate_users_issued a,
      preMigrate_groups_issued a, preMigrate_policies_protocols a, hP3, Or.inl hall⟩
  | some g =>
    obtain ⟨S1, S2, S3, S4, S5, S6, S7, S8, S9⟩ :=
      migratePass1_spec p hnow hgen (preMigrate a).Peers st.counter
    have hl4 : labelsOf (migratePass1 p (preMigrate a).Peers st.counter).1 =
        labelsOf (preMigrate a).Peers := labelsOf_of_passSig _ _ S1
    have hP4 : labelsGood (migratePass1 p (preMigrate a).Peers st.counter).1 :=
      labelsGood_transfer _ _ (by rw [hl4]) hP3
    by_cases hm : (migratePass1 p (preMigrate a).Peers st.counter).2.1 = []
    · rw [restoreAccount_some_nil p st aid a g hall hm]
      exact ⟨preMigrate_Settings_isSome a, preMigrate_users_issued a,
        preMigrate_groups_issued a, preMigrate_policies_protocols a, hP4,
        Or.inr ⟨backfillRoutes_groups g.ID _, S2⟩⟩
    · have hperm := restoreAccount_rekey_perm p hnow hgen hinj a st.counter hnd hfresh
      rw [restoreAccount_some_cons p st aid a g hall hm]
      refine ⟨preMigrate_Settings_isSome a, preMigrate_users_issued a, ?_,
        preMigrate_policies_protocols a, ?_, Or.inr ⟨?_, ?_⟩⟩
      · exact rewriteGroups_issued _ _ (preMigrate_groups_issued a)
      · exact labelsGood_transfer _ _ (perm_proj_snd Peer.DNSLabel _ _ hperm) hP4
      · exact rewriteRoutes_groups _ _ (backfillRoutes_groups g.ID _)
      · exact snd_prop_of_perm (fun pr => pr.ID ≠ "" ∧ pr.LastLogin ≠ 0) _ _ hperm S2

theorem idxPut_congr (m1 m2 : Idx) (d v : String) (h : ∀ k, m1 k = m2 k) (k : String) :
    idxPut m1 d v k = idxPut m2 d v k := by
  by_cases hk : k = d <;> simp [idxPut, hk, h k]

theorem peerKeyPairs_fst (aid : String) (ps : List (String × Peer)) :
    (peerKeyPairs aid ps).map Prod.fst = ps.map (fun q => q.2.Key) := by
  unfold peerKeyPairs
  rw [List.map_map]
  rfl

theorem peerIdPairs_fst (aid : String) (ps : List (String × Peer)) :
    (peerIdPairs aid ps).map Prod.fst = ps.map (fun q => q.2.ID) := by
  unfold peerIdPairs
  rw [List.map_map]
  rfl

theorem flatMap_map_congr {α β : Type} (f : α → α) (g : α → List β) (l : List α)
    (h : ∀ x ∈ l, g (f x) = g x) : (l.map f).flatMap g = l.flatMap g := by
  induction l with
  | nil => rfl
  | cons x t ih =>
    rw [List.map_cons, List.flatMap_cons, List.flatMap_cons, h x (List.mem_cons_self x t),
      ih (fun y hy => h y (List.mem_cons_of_mem x hy))]

theorem userPairs_preMigrate (aid : String) (a : Account) :
    userPairs aid (preMigrate a) = userPairs aid a := by
  unfold userPairs
  rw [preMigrate_Users, List.map_map]
  apply List.map_congr_left
  intro q _
  by_cases hi : q.2.Issued = "" <;> simp [Function.comp, hi]

theorem tokenPairs_preMigrate (a : Account) : tokenPairs (preMigrate a) = tokenPairs a := by
  unfold tokenPairs
  rw [preMigrate_Users]
  apply flatMap_map_congr
  intro q _
  by_cases hi : q.2.Issued = "" <;> simp [hi]

theorem hashedPairs_preMigrate (a : Account) : hashedPairs (preMigrate a) = hashedPairs a := by
  unfold hashedPairs
  rw [preMigrate_Users]
  apply flatMap_map_congr
  intro q _
  by_cases hi : q.2.Issued = "" <;> simp [hi]

/-- Pointwise comparison of two constant-value insert runs whose key sets
agree at the point. -/
theorem applyPairs_const_mem_eq (m1 m2 : Idx) (l1 l2 : List (String × String)) (v k : String)
    (hv1 : ∀ q ∈ l1, q.2 = v) (hv2 : ∀ q ∈ l2, q.2 = v)
    (hiff : k ∈ l1.map Prod.fst ↔ k ∈ l2.map Prod.fst)
    (hm : m1 k = m2 k) :
    applyPairs m1 l1 k = applyPairs m2 l2 k := by
  rw [applyPairs_const _ _ v hv1 k, applyPairs_const _ _ v hv2 k]
  by_cases hmem : k ∈ l1.map Prod.fst
  · simp [hmem, hiff.mp hmem]
  · have h2 : k ∉ l2.map Prod.fst := fun hcm => hmem (hiff.mpr hcm)
    simp [hmem, h2, hm]

/-- The closeness relation between a first-run restore state and a
second-run restore state: all indices agree pointwise, except that the
peer-ID index is only required to agree away from the empty key, and the
xid counters are unrelated. -/
def StClose (s1 s2 : RestoreState) : Prop :=
  (∀ k, s1.setupIdx k = s2.setupIdx k) ∧
  (∀ k, s1.peerKeyIdx k = s2.peerKeyIdx k) ∧
  (∀ k, s1.userIdx k = s2.userIdx k) ∧
  (∀ k, s1.domainIdx k = s2.domainIdx k) ∧
  (∀ k, s1.hashedIdx k = s2.hashedIdx k) ∧
  (∀ k, s1.tokenIdx k = s2.tokenIdx k) ∧
  (∀ k, k ≠ "" → s1.peerIdIdx k = s2.peerIdIdx k)

/-- Lemma C: running the loop body on an account in run one, and on its
migrated output in run two from a close state, leaves close states. -/
theorem restoreAccount_close (p : MigParams) (hnow : 0 < p.now)
    (hgen : ∀ i, p.gen i ≠ "") (hinj : Function.Injective p.gen)
    (st st2 : RestoreState) (aid : String) (a : Account) (hc : StClose st st2)
    (hnd : (a.Peers.map Prod.fst).Nodup)
    (hfresh : ∀ i, p.gen i ∉ a.Peers.map Prod.fst) :
    StClose (restoreAccount p st aid a).1
      (idxStep st2 aid (restoreAccount p st aid a).2) := by
  obtain ⟨c1, c2, c3, c4, c5, c6, c7⟩ := hc
  obtain ⟨f1, f2, f3, f4, f5⟩ := restoreAccount_out_flat p st aid a
  obtain ⟨g1, g2, g3, g4, g5, g6⟩ := restoreAccount_state_flat p st aid a
  have hids3 : (preMigrate a).Peers.map (fun q => q.2.ID) =
      a.Peers.map (fun q => q.2.ID) := by
    rw [preMigrate_Peers]
    exact map_ids_of_peerSig _ _ (labelStep_sig a.Peers)
  refine ⟨?_, ?_, ?_, ?_, ?_, ?_, ?_⟩
  · intro k
    rw [g1, idxStep_setup, idxStep_setup]
    have he : setupPairs aid (restoreAccount p st aid a).2 = setupPairs aid a := by
      unfold setupPairs
      rw [f1]
    rw [he]
    exact applyPairs_congr _ _ _ c1 k
  · intro k
    rw [g2, idxStep_peerKey, idxStep_peerKey]
    have hKperm := restoreAccount_out_key_perm p hnow hgen hinj st aid a hnd hfresh
    apply applyPairs_const_congr _ _ _ _ aid
    · intro q hq
      obtain ⟨x, _, he⟩ := List.mem_map.mp hq
      rw [← he]
    · intro q hq
      obtain ⟨x, _, he⟩ := List.mem_map.mp hq
      rw [← he]
    · intro k2
      rw [peerKeyPairs_fst, peerKeyPairs_fst]
      exact hKperm.mem_iff.symm
    · exact c2
  · intro k
    rw [g3, idxStep_user, idxStep_user]
    have he : userPairs aid (restoreAccount p st aid a).2 = userPairs aid a := by
      have h2 : userPairs aid (restoreAccount p st aid a).2 =
          userPairs aid (preMigrate a) := by
        unfold userPairs
        rw [f2]
      rw [h2, userPairs_preMigrate]
    rw [he]
    exact applyPairs_congr _ _ _ c3 k
  · intro k
    rw [g4, idxStep_domain, idxStep_domain, f3, f4, f5]
    by_cases hcond : a.Domain ≠ "" ∧ a.DomainCategory = PrivateCategory ∧
        a.IsDomainPrimaryAccount = true
    · rw [if_pos hcond, if_pos hcond]
      exact idxPut_congr _ _ _ _ c4 k
    · rw [if_neg hcond, if_neg hcond]
      exact c4 k
  · intro k
    rw [g5, idxStep_hashed, idxStep_hashed]
    have he : hashedPairs (restoreAccount p st aid a).2 = hashedPairs a := by
      have h2 : hashedPairs (restoreAccount p st aid a).2 =
          hashedPairs (preMigrate a) := by
        unfold hashedPairs
        rw [f2]
      rw [h2, hashedPairs_preMigrate]
    rw [he]
    exact applyPairs_congr _ _ _ c5 k
  · intro k
    rw [g6, idxStep_token, idxStep_token]
    have he : tokenPairs (restoreAccount p st aid a).2 = tokenPairs a := by
      have h2 : tokenPairs (restoreAccount p st aid a).2 =
          tokenPairs (preMigrate a) := by
        unfold tokenPairs
        rw [f2]
      rw [h2, tokenPairs_preMigrate]
    rw [he]
    exact applyPairs_congr _ _ _ c6 k
  · intro k hk
    have hv1 : ∀ q ∈ peerIdPairs aid a.Peers, q.2 = aid := by
      intro q hq
      obtain ⟨x, _, he⟩ := List.mem_map.mp hq
      rw [← he]
    cases hall : findGroupAll (preMigrate a).Groups with
    | none =>
      have hL : (restoreAccount p st aid a).1.peerIdIdx =
          applyPairs st.peerIdIdx (peerIdPairs aid a.Peers) := by
        rw [restoreAccount_none p st aid a hall]
        exact idxStep_peerId st aid a
      have hR : (idxStep st2 aid (restoreAccount p st aid a).2).peerIdIdx =
          applyPairs st2.peerIdIdx (peerIdPairs aid (preMigrate a).Peers) := by
        rw [restoreAccount_none p st aid a hall]
        exact idxStep_peerId st2 aid (preMigrate a)
      have hv2 : ∀ q ∈ peerIdPairs aid (preMigrate a).Peers, q.2 = aid := by
        intro q hq
        obtain ⟨x, _, he⟩ := List.mem_map.mp hq
        rw [← he]
      rw [hL, hR]
      apply applyPairs_const_mem_eq _ _ _ _ aid k hv1 hv2
      · rw [peerIdPairs_fst, peerIdPairs_fst, hids3]
      · exact c7 k hk
    | some g =>
      obtain ⟨S1, S2, S3, S4, S5, S6, S7, S8, S9⟩ :=
        migratePass1_spec p hnow hgen (preMigrate a).Peers st.counter
      have hfwd : ∀ k2, k2 ≠ "" → k2 ∈ a.Peers.map (fun q => q.2.ID) →
          k2 ∈ (migratePass1 p (preMigrate a).Peers st.counter).1.map
            (fun q => q.2.ID) := by
        intro k2 hk2 hmem
        rw [← hids3] at hmem
        obtain ⟨y, hy, hye⟩ := List.mem_map.mp hmem
        have hye2 : y.2.ID = k2 := hye
        have h8 := S8 y hy (by rw [hye2]; exact hk2)
        rw [hye2] at h8
        exact h8
      have hbwd : ∀ k2, k2 ∈ (migratePass1 p (preMigrate a).Peers st.counter).1.map
            (fun q => q.2.ID) →
          (k2 ∈ a.Peers.map (fun q => q.2.ID) ∨
           k2 ∈ (migratePass1 p (preMigrate a).Peers st.counter).2.1.map
             (fun q => q.2.ID)) := by
        intro k2 hmem
        obtain ⟨x, hx, hxe⟩ := List.mem_map.mp hmem
        have hxe2 : x.2.ID = k2 := hxe
        rcases S7 x hx with h1 | h1
        · left
          rw [← hids3, ← hxe2]
          exact h1
        · right
          rw [← hxe2]
          exact List.mem_map_of_mem (fun q => q.2.ID) h1
      have hmig_sub : ∀ k2,
          k2 ∈ (migratePass1 p (preMigrate a).Peers st.counter).2.1.map
            (fun q => q.2.ID) →
          k2 ∈ (migratePass1 p (preMigrate a).Peers st.counter).1.map
            (fun q => q.2.ID) := by
        intro k2 hmem
        obtain ⟨x, hx, hxe⟩ := List.mem_map.mp hmem
        have hxe2 : x.2.ID = k2 := hxe
        rw [← hxe2]
        exact List.mem_map_of_mem (fun q => q.2.ID) (S3 x hx)
      by_cases hm : (migratePass1 p (preMigrate a).Peers st.counter).2.1 = []
      · have hL : (restoreAccount p st aid a).1.peerIdIdx =
            applyPairs st.peerIdIdx (peerIdPairs aid a.Peers) := by
          rw [restoreAccount_some_nil p st aid a g hall hm]
          exact idxStep_peerId st aid a
        have hR : (idxStep st2 aid (restoreAccount p st aid a).2).peerIdIdx =
            applyPairs st2.peerIdIdx
              (peerIdPairs aid (migratePass1 p (preMigrate a).Peers st.counter).1) := by
          rw [restoreAccount_some_nil p st aid a g hall hm]
          exact idxStep_peerId st2 aid _
        have hv2 : ∀ q ∈ peerIdPairs aid
            (migratePass1 p (preMigrate a).Peers st.counter).1, q.2 = aid := by
          intro q hq
          obtain ⟨x, _, he⟩ := List.mem_map.mp hq
          rw [← he]
        rw [hL, hR]
        apply applyPairs_const_mem_eq _ _ _ _ aid k hv1 hv2
        · rw [peerIdPairs_fst, peerIdPairs_fst]
          constructor
          · exact hfwd k hk
          · intro hmem
            rcases hbwd k hmem with h1 | h1
            · exact h1
            · rw [hm] at h1
              simp at h1
        · exact c7 k hk
      · have hperm := restoreAccount_rekey_perm p hnow hgen hinj a st.counter hnd hfresh
        have hIDperm := perm_proj_snd Peer.ID _ _ hperm
        have hL : (restoreAccount p st aid a).1.peerIdIdx =
            applyPairs st.peerIdIdx (peerIdPairs aid a.Peers ++
              peerIdPairs aid (migratePass1 p (preMigrate a).Peers st.counter).2.1) := by
          rw [restoreAccount_some_cons p st aid a g hall hm]
          show putMigsIdx (idxStep st aid a).peerIdIdx aid
              (migratePass1 p (preMigrate a).Peers st.counter).2.1 = _
          rw [putMigsIdx_eq, idxStep_peerId, ← applyPairs_append]
        have hR : (idxStep st2 aid (restoreAccount p st aid a).2).peerIdIdx =
            applyPairs st2.peerIdIdx (peerIdPairs aid
              (rekeyPeers (migratePass1 p (preMigrate a).Peers st.counter).2.1
                (migratePass1 p (preMigrate a).Peers st.counter).1)) := by
          rw [restoreAccount_some_cons p st aid a g hall hm]
          exact idxStep_peerId st2 aid _
        have hv1b : ∀ q ∈ peerIdPairs aid a.Peers ++
            peerIdPairs aid (migratePass1 p (preMigrate a).Peers st.counter).2.1,
            q.2 = aid := by
          intro q hq
          rcases List.mem_append.mp hq with h1 | h1 <;>
          · obtain ⟨x, _, he⟩ := List.mem_map.mp h1
            rw [← he]
        have hv2 : ∀ q ∈ peerIdPairs aid
            (rekeyPeers (migratePass1 p (preMigrate a).Peers st.counter).2.1
              (migratePass1 p (preMigrate a).Peers st.counter).1), q.2 = aid := by
          intro q hq
          obtain ⟨x, _, he⟩ := List.mem_map.mp hq
          rw [← he]
        rw [hL, hR]
        apply applyPairs_const_mem_eq _ _ _ _ aid k hv1b hv2
        · rw [List.map_append, peerIdPairs_fst, peerIdPairs_fst, peerIdPairs_fst]
          constructor
          · intro hmm
            rcases List.mem_append.mp hmm with h1 | h1
            · exact hIDperm.mem_iff.mpr (hfwd k hk h1)
            · exact hIDperm.mem_iff.mpr (hmig_sub k h1)
          · intro hmm
            have h2 := hIDperm.mem_iff.mp hmm
            rcases hbwd k h2 with h1 | h1
            · exact List.mem_append.mpr (Or.inl h1)
            · exact List.mem_append.mpr (Or.inr h1)
        · exact c7 k hk

/-- Lemma D: the restore loop run a second time over the first run's output
accounts reproduces those accounts and a close final state. -/
theorem restoreAll_idem (p : MigParams) (hnow : 0 < p.now)
    (hgen : ∀ i, p.gen i ≠ "") (hinj : Function.Injective p.gen) :
    ∀ (accs : List (String × Account)) (st st2 : RestoreState),
    StClose st st2 →
    (∀ q ∈ accs, ((q.2.Peers.map Prod.fst).Nodup ∧
       ∀ i, p.gen i ∉ q.2.Peers.map Prod.fst)) →
    (restoreAll p st2 (restoreAll p st accs).2).2 = (restoreAll p st accs).2 ∧
    StClose (restoreAll p st accs).1 (restoreAll p st2 (restoreAll p st accs).2).1 := by
  intro accs
  induction accs with
  | nil => exact fun st st2 hc _ => ⟨rfl, hc⟩
  | cons q t ih =>
    intro st st2 hc hacc
    obtain ⟨aid, a⟩ := q
    obtain ⟨hnd, hfresh⟩ := hacc (aid, a) (List.mem_cons_self _ _)
    have haccT := fun x hx => hacc x (List.mem_cons_of_mem _ hx)
    have hmig := restoreAccount_out_migrated p hnow hgen hinj st aid a hnd hfresh
    have hA2 := restoreAccount_migrated p st2 aid (restoreAccount p st aid a).2 hmig
    have hA2a : (restoreAccount p st2 aid (restoreAccount p st aid a).2).1 =
        idxStep st2 aid (restoreAccount p st aid a).2 := by rw [hA2]
    have hA2b : (restoreAccount p st2 aid (restoreAccount p st aid a).2).2 =
        (restoreAccount p st aid a).2 := by rw [hA2]
    have hC := restoreAccount_close p hnow hgen hinj st st2 aid a hc hnd hfresh
    have hIH := ih (restoreAccount p st aid a).1
      (idxStep st2 aid (restoreAccount p st aid a).2) hC haccT
    have hstep1 : restoreAll p st ((aid, a) :: t) =
        ((restoreAll p (restoreAccount p st aid a).1 t).1,
         (aid, (restoreAccount p st aid a).2) ::
           (restoreAll p (restoreAccount p st aid a).1 t).2) := rfl
    have hstep2 : restoreAll p st2 ((aid, (restoreAccount p st aid a).2) ::
          (restoreAll p (restoreAccount p st aid a).1 t).2) =
        ((restoreAll p (restoreAccount p st2 aid (restoreAccount p st aid a).2).1
            (restoreAll p (restoreAccount p st aid a).1 t).2).1,
         (aid, (restoreAccount p st2 aid (restoreAccount p st aid a).2).2) ::
           (restoreAll p (restoreAccount p st2 aid (restoreAccount p st aid a).2).1
             (restoreAll p (restoreAccount p st aid a).1 t).2).2) := rfl
    rw [hstep1, hstep2, hA2a, hA2b]
    exact ⟨by rw [hIH.1], hIH.2⟩

/-- Claim C5, counterexample: the migration pass is not idempotent on the
secondary indices.  Restoring a store holding the legacy account acctLegacy
leaves the stale index entry PeerID2AccountID[""] = "a1" behind (the initial
index rebuild of line 134 indexes the peer's still-empty ID and the peer
identity migration never deletes that entry); running the pass again over
the migrated accounts produces no such entry, so the two runs' final index
states differ at the empty key. -/
theorem claim5_counterexample :
    (restore migP [("a1", acctLegacy)] "").PeerID2AccountID "" = some "a1" ∧
    (restore migP (restore migP [("a1", acctLegacy)] "").Accounts "").PeerID2AccountID ""
      = none :=
  ⟨by decide, by decide⟩

theorem migP_now_pos : 0 < migP.now := by decide

theorem migP_gen_ne : ∀ i, migP.gen i ≠ "" := by
  intro i h
  have h1 : (migP.gen i).data.length = i + 1 := by
    show (List.replicate (i + 1) 'x').length = i + 1
    simp
  rw [h] at h1
  have h2 : (0 : Nat) = i + 1 := h1
  omega

theorem migP_gen_inj : Function.Injective migP.gen := by
  intro n m h
  have h1 : (migP.gen n).data.length = n + 1 := by
    show (List.replicate (n + 1) 'x').length = n + 1
    simp
  have h2 : (migP.gen m).data.length = m + 1 := by
    show (List.replicate (m + 1) 'x').length = m + 1
    simp
  rw [h, h2] at h1
  omega

theorem migP_fresh_legacy : ∀ q ∈ [(("a1" : String), acctLegacy)],
    ((q.2.Peers.map Prod.fst).Nodup ∧
     ∀ i, migP.gen i ∉ q.2.Peers.map Prod.fst) := by
  intro q hq
  rw [List.mem_singleton] at hq
  subst hq
  refine ⟨by decide, ?_⟩
  intro i hcm
  have h1 : acctLegacy.Peers.map Prod.fst = ["PK"] := by decide
  rw [h1, List.mem_singleton] at hcm
  have h2 : (migP.gen i).data.head? = ("PK" : String).data.head? :=
    congrArg (fun s => s.data.head?) hcm
  have h3 : (migP.gen i).data.head? = some 'x' := by
    show (List.replicate (i + 1) 'x').head? = some 'x'
    rw [List.replicate_succ]
    rfl
  rw [h3] at h2
  exact absurd h2 (by decide)

/-- Claim C5, amended: the migration pass is idempotent up to the stale
empty-key entry of the peer-ID index.  Under the implicit uniqueness
assumptions of the code (peer map keys are unique within an account, xid
generates distinct non-empty IDs never colliding with existing map keys),
a second restore run over the accounts produced by a first run returns
exactly the same accounts, the same installation ID and pointwise the same
setup-key, peer-key, user, private-domain, hashed-token and token indices;
the peer-ID indices agree at every key except possibly the empty string
(the first run indexes legacy peers' empty IDs before assigning them fresh
ones and never removes that entry, the second run has no legacy peers
left). -/
theorem claim5_amended (p : MigParams) (accs : List (String × Account)) (instID : String)
    (hnow : 0 < p.now) (hgen : ∀ i, p.gen i ≠ "")
    (hinj : Function.Injective p.gen)
    (hacc : ∀ q ∈ accs, ((q.2.Peers.map Prod.fst).Nodup ∧
      ∀ i, p.gen i ∉ q.2.Peers.map Prod.fst)) :
    (restore p (restore p accs instID).Accounts instID).Accounts =
      (restore p accs instID).Accounts ∧
    (∀ k, (restore p (restore p accs instID).Accounts instID).SetupKeyID2AccountID k =
      (restore p accs instID).SetupKeyID2AccountID k) ∧
    (∀ k, (restore p (restore p accs instID).Accounts instID).PeerKeyID2AccountID k =
      (restore p accs instID).PeerKeyID2AccountID k) ∧
    (∀ k, (restore p (restore p accs instID).Accounts instID).UserID2AccountID k =
      (restore p accs instID).UserID2AccountID k) ∧
    (∀ k, (restore p (restore p accs instID).Accounts instID).PrivateDomain2AccountID k =
      (restore p accs instID).PrivateDomain2AccountID k) ∧
    (∀ k, (restore p (restore p accs instID).Accounts instID).HashedPAT2TokenID k =
      (restore p accs instID).HashedPAT2TokenID k) ∧
    (∀ k, (restore p (restore p accs instID).Accounts instID).TokenID2UserID k =
      (restore p accs instID).TokenID2UserID k) ∧
    (∀ k, k ≠ "" →
      (restore p (restore p accs instID).Accounts instID).PeerID2AccountID k =
        (restore p accs instID).PeerID2AccountID k) ∧
    (restore p (restore p accs instID).Accounts instID).InstallationID =
      (restore p accs instID).InstallationID := by
  have hclose0 : StClose emptyRestoreState emptyRestoreState :=
    ⟨fun _ => rfl, fun _ => rfl, fun _ => rfl, fun _ => rfl, fun _ => rfl,
     fun _ => rfl, fun _ _ => rfl⟩
  have h := restoreAll_idem p hnow hgen hinj accs emptyRestoreState emptyRestoreState
    hclose0 hacc
  obtain ⟨hAcc, s1, s2, s3, s4, s5, s6, s7⟩ := h
  exact ⟨hAcc, fun k => (s1 k).symm, fun k => (s2 k).symm, fun k => (s3 k).symm,
    fun k => (s4 k).symm, fun k => (s5 k).symm, fun k => (s6 k).symm,
    fun k hk => (s7 k hk).symm, rfl⟩

/-- Claim C5, witness: the amended idempotence evaluated on the one-account
legacy store, with the hypothesis to the amended theorem discharged on that
concrete input. -/
theorem claim5_witness :
    (0 < migP.now ∧ (∀ i, migP.gen i ≠ "") ∧ Function.Injective migP.gen ∧
     (∀ q ∈ [(("a1" : String), acctLegacy)], ((q.2.Peers.map Prod.fst).Nodup ∧
       ∀ i, migP.gen i ∉ q.2.Peers.map Prod.fst))) ∧
    (restore migP (restore migP [("a1", acctLegacy)] "inst").Accounts "inst").Accounts =
      (restore migP [("a1", acctLegacy)] "inst").Accounts :=
  ⟨⟨migP_now_pos, migP_gen_ne, migP_gen_inj, migP_fresh_legacy⟩,
   (claim5_amended migP [("a1", acctLegacy)] "inst" migP_now_pos migP_gen_ne
      migP_gen_inj migP_fresh_legacy).1⟩

end NB
